import Mathlib

/-!
Verification of the interactive map engine of `osman` (`src/python/html_export.py`).

The rendering/interaction engine is JavaScript generated by `_generate_js`; the
ingestion layer is the Python `HtmlExport` class.  Both are shallowly embedded
here: machine floats are modelled by exact reals, mutable view state by explicit
state records, and the event handlers by state-transition functions translated
line by line from the source.
-/

namespace Osman

/-! ## Coordinate projector (source: `latlngToPixel`, `pixelToLatLng`,
    `getCenterPixel`, `TILE_SIZE`, lines 804, 825-863 of the generated JS) -/

/-- `TILE_SIZE = 256`. -/
def TILE_SIZE : ℝ := 256

/-- The view state read by the projector: `viewCenter = [centerLat, centerLng]`,
`viewZoom = zoom`, and the CSS-pixel canvas size
`w = canvas.width / devicePixelRatio`, `h = canvas.height / devicePixelRatio`. -/
structure View where
  centerLat : ℝ
  centerLng : ℝ
  zoom : ℝ
  w : ℝ
  h : ℝ

/-- `const scale = Math.pow(2, viewZoom) * TILE_SIZE`. -/
noncomputable def scaleOf (v : View) : ℝ := (2 : ℝ) ^ v.zoom * TILE_SIZE

/-- The normalized Mercator y of a latitude (degrees):
`(1 - log(tan(latRad) + 1/cos(latRad)) / π) / 2` with `latRad = lat * π / 180`.
Multiplied by `scale` it appears verbatim in `latlngToPixel`, `getCenterPixel`
and `onWheel`. -/
noncomputable def mercNorm (lat : ℝ) : ℝ :=
  (1 - Real.log (Real.tan (lat * Real.pi / 180) + 1 / Real.cos (lat * Real.pi / 180))
      / Real.pi) / 2

/-- World-pixel y of a latitude at scale `s`. -/
noncomputable def mercWorldY (s lat : ℝ) : ℝ := mercNorm lat * s

/-- World-pixel x of a longitude at scale `s`: `(lng + 180) / 360 * scale`. -/
noncomputable def mercWorldX (s lng : ℝ) : ℝ := (lng + 180) / 360 * s

/-- `getCenterPixel()`. -/
noncomputable def getCenterPixel (v : View) : ℝ × ℝ :=
  (mercWorldX (scaleOf v) v.centerLng, mercWorldY (scaleOf v) v.centerLat)

/-- `latlngToPixel(lat, lng)` (returns `{x, y}` as a pair). -/
noncomputable def latlngToPixel (v : View) (lat lng : ℝ) : ℝ × ℝ :=
  (mercWorldX (scaleOf v) lng - (getCenterPixel v).1 + v.w / 2,
   mercWorldY (scaleOf v) lat - (getCenterPixel v).2 + v.h / 2)

/-- The latitude (degrees) recovered from a world y value at scale `s`:
`180/π · atan(0.5·(exp n − exp(−n)))` with `n = π − 2π·worldY/scale`,
as in `pixelToLatLng` and `onWheel`. -/
noncomputable def latOfWorldY (s worldY : ℝ) : ℝ :=
  180 / Real.pi *
    Real.arctan (0.5 * (Real.exp (Real.pi - 2 * Real.pi * worldY / s)
      - Real.exp (-(Real.pi - 2 * Real.pi * worldY / s))))

/-- `pixelToLatLng(px, py)` (returns `(lat, lng)`):
`worldX = px + centerPixel.x - w/2`, `worldY = py + centerPixel.y - h/2`,
`lng = worldX / scale * 360 - 180`, `lat = 180/π · atan(0.5·(exp n - exp (-n)))`
with `n = π - 2π·worldY/scale`. -/
noncomputable def pixelToLatLng (v : View) (px py : ℝ) : ℝ × ℝ :=
  (latOfWorldY (scaleOf v) (py + (getCenterPixel v).2 - v.h / 2),
   (px + (getCenterPixel v).1 - v.w / 2) / scaleOf v * 360 - 180)

/-! ## Viewport controller (source: `onMouseMove`, `normalizeLng`, `onWheel`,
    lines 1091-1170 of the generated JS) -/

/-- The engine's mutable state: view center/zoom, canvas CSS size, and the
drag-gesture variables `isDragging`, `dragStart`, `dragCenterStart`. -/
structure MapState where
  centerLat : ℝ
  centerLng : ℝ
  zoom : ℝ
  w : ℝ
  h : ℝ
  isDragging : Bool
  dragStart : Option (ℝ × ℝ)
  dragCenterStart : Option (ℝ × ℝ)

/-- The view state currently in effect. -/
def MapState.view (st : MapState) : View :=
  ⟨st.centerLat, st.centerLng, st.zoom, st.w, st.h⟩

/-- `normalizeLng(lng)`: the source decrements by 360 while `lng > 180`, then
increments by 360 while `lng < -180`.  Both loops terminate on every real
input and compute exactly this closed form (the number of iterations of the
first loop is `⌈(lng-180)/360⌉`, of the second `⌈(-180-lng)/360⌉`; after the
first loop runs at least once the result already lies in (-180, 180], so the
second loop never follows the first). -/
noncomputable def normalizeLng (lng : ℝ) : ℝ :=
  if 180 < lng then lng - 360 * (⌈(lng - 180) / 360⌉ : ℤ)
  else if lng < -180 then lng + 360 * (⌈(-180 - lng) / 360⌉ : ℤ)
  else lng

/-- `targetLatLng` of a wheel event: `pixelToLatLng(mouseX, mouseY)`, with the
longitude then brought within ±180 of the current center longitude by the two
while-loops of `onWheel` (the same recurrence as `normalizeLng`, applied to
`targetLng - viewCenter[1]`). -/
noncomputable def wheelTarget (st : MapState) (mouseX mouseY : ℝ) : ℝ × ℝ :=
  let t := pixelToLatLng st.view mouseX mouseY
  (t.1, st.centerLng + normalizeLng (t.2 - st.centerLng))

/-- `delta = e.deltaY > 0 ? -0.5 : 0.5;
newZoom = Math.max(1, Math.min(20, viewZoom + delta))`. -/
noncomputable def wheelNewZoom (st : MapState) (deltaY : ℝ) : ℝ :=
  max 1 (min 20 (st.zoom + if 0 < deltaY then -0.5 else 0.5))

/-- The new center computed by `onWheel` before the final latitude clamp and
longitude normalization: project the (adjusted) target at the new zoom's scale,
solve `newCenterWorld = targetWorld - mouse + canvas/2`, and invert. -/
noncomputable def wheelRawCenter (st : MapState) (mouseX mouseY deltaY : ℝ) : ℝ × ℝ :=
  let t := wheelTarget st mouseX mouseY
  let s' := (2 : ℝ) ^ wheelNewZoom st deltaY * TILE_SIZE
  let ncwX := mercWorldX s' t.2 - mouseX + st.w / 2
  let ncwY := mercWorldY s' t.1 - mouseY + st.h / 2
  (latOfWorldY s' ncwY, ncwX / s' * 360 - 180)

/-- `onWheel(e)` state transition (`mouseX`, `mouseY` relative to the canvas):
early-return if the clamped zoom does not change, otherwise install the new
zoom and the clamped/normalized new center. -/
noncomputable def onWheel (st : MapState) (mouseX mouseY deltaY : ℝ) : MapState :=
  let newZoom := wheelNewZoom st deltaY
  if newZoom = st.zoom then st
  else
    let raw := wheelRawCenter st mouseX mouseY deltaY
    { st with
      centerLat := max (-85) (min 85 raw.1)
      centerLng := normalizeLng raw.2
      zoom := newZoom }

/-- `onMouseMove(e)` in the panning branch (`isDragging && dragStart`); the
canvas bounding rect is taken at the origin, so client coordinates equal canvas
coordinates.  In the non-dragging branch the handler only updates the tooltip
and leaves the state unchanged.  (`onTouchMove` with one touch runs the same
code.) -/
noncomputable def onMouseMove (st : MapState) (clientX clientY : ℝ) : MapState :=
  match st.isDragging, st.dragStart, st.dragCenterStart with
  | true, some ds, some dcs =>
    let dx := clientX - ds.1
    let dy := clientY - ds.2
    let startLatLng := pixelToLatLng st.view (st.w / 2) (st.h / 2)
    let endLatLng := pixelToLatLng st.view (st.w / 2 - dx) (st.h / 2 - dy)
    { st with
      centerLat := dcs.1 - (endLatLng.1 - startLatLng.1)
      centerLng := dcs.2 - (endLatLng.2 - startLatLng.2) }
  | _, _, _ => st

/-! ## Hit tester (source: `updateTooltip`, `isPointNearLine`,
    `pointToSegmentDistance`, `isPointInPolygon`, `pointInRing`,
    lines 1238-1339 of the generated JS) -/

/-- A point feature as seen by the hit tester: coordinates and the style
radius used in the threshold `radius + 3`. -/
structure PointFeat where
  lat : ℝ
  lng : ℝ
  radius : ℝ

/-- A line feature: vertex list (lat, lng pairs) and the style stroke width
used in the tolerance `stroke_width / 2 + 5`. -/
structure LineFeat where
  coords : List (ℝ × ℝ)
  strokeWidth : ℝ

/-- A polygon feature: outer ring first, then hole rings. -/
structure PolyFeat where
  rings : List (List (ℝ × ℝ))

/-- `mapData`: the three feature collections, in insertion order. -/
structure MapData where
  points : List PointFeat
  lines : List LineFeat
  polygons : List PolyFeat

/-- `Math.sqrt(Math.pow(x - px, 2) + Math.pow(y - py, 2))`. -/
noncomputable def pixDist (x y px py : ℝ) : ℝ :=
  Real.sqrt ((x - px) ^ 2 + (y - py) ^ 2)

/-- The point pass test of `updateTooltip`:
`dist ≤ point.style.radius + 3`. -/
noncomputable def pointHit (v : View) (x y : ℝ) (p : PointFeat) : Bool :=
  decide (pixDist x y (latlngToPixel v p.lat p.lng).1 (latlngToPixel v p.lat p.lng).2
    ≤ p.radius + 3)

/-- `pointToSegmentDistance(px, py, x1, y1, x2, y2)` with the parameter
clamped to [0, 1]. -/
noncomputable def pointToSegmentDistance (px py x1 y1 x2 y2 : ℝ) : ℝ :=
  let dx := x2 - x1
  let dy := y2 - y1
  let len2 := dx * dx + dy * dy
  if len2 = 0 then Real.sqrt ((px - x1) ^ 2 + (py - y1) ^ 2)
  else
    let t := max 0 (min 1 (((px - x1) * dx + (py - y1) * dy) / len2))
    let nearX := x1 + t * dx
    let nearY := y1 + t * dy
    Real.sqrt ((px - nearX) ^ 2 + (py - nearY) ^ 2)

/-- The segment list scanned by `isPointNearLine`:
`(coords[i], coords[i+1])` for `i = 0 .. length-2`. -/
def consecutivePairs {α : Type} (l : List α) : List (α × α) := l.zip l.tail

/-- `isPointNearLine(px, py, line)`. -/
noncomputable def isPointNearLine (v : View) (px py : ℝ) (ln : LineFeat) : Bool :=
  (consecutivePairs ln.coords).any fun pr =>
    decide (pointToSegmentDistance px py
      (latlngToPixel v pr.1.1 pr.1.2).1 (latlngToPixel v pr.1.1 pr.1.2).2
      (latlngToPixel v pr.2.1 pr.2.2).1 (latlngToPixel v pr.2.1 pr.2.2).2
      ≤ ln.strokeWidth / 2 + 5)

/-- The edge list scanned by `pointInRing`: `(ring[i], ring[j])` where `j`
starts at `length-1` and then trails `i` by one. -/
def ringEdges (ring : List (ℝ × ℝ)) : List ((ℝ × ℝ) × (ℝ × ℝ)) :=
  match ring with
  | [] => []
  | _ => ring.zip (ring.getLastD (0, 0) :: ring.dropLast)

/-- One iteration of the `pointInRing` loop body: toggle `inside` when the
edge straddles the horizontal line through the query and the crossing is to
the right of the query. -/
noncomputable def ringStep (px py : ℝ) (inside : Bool) (e : (ℝ × ℝ) × (ℝ × ℝ)) : Bool :=
  if (decide (py < e.1.2) != decide (py < e.2.2))
      && decide (px < (e.2.1 - e.1.1) * (py - e.1.2) / (e.2.2 - e.1.2) + e.1.1)
  then !inside else inside

/-- `pointInRing(px, py, ring)`: the ray-casting parity loop. -/
noncomputable def pointInRing (px py : ℝ) (ring : List (ℝ × ℝ)) : Bool :=
  (ringEdges ring).foldl (ringStep px py) false

/-- `isPointInPolygon(px, py, polygon)`: empty ring list fails; otherwise the
query must lie inside the projected outer ring and inside none of the
projected hole rings. -/
noncomputable def isPointInPolygon (v : View) (px py : ℝ) (pg : PolyFeat) : Bool :=
  match pg.rings.map (fun ring => ring.map fun c => latlngToPixel v c.1 c.2) with
  | [] => false
  | outer :: holes => pointInRing px py outer && holes.all fun hr => !pointInRing px py hr

/-- The feature found by a hit-test query. -/
inductive Hit where
  | pt : PointFeat → Hit
  | ln : LineFeat → Hit
  | pg : PolyFeat → Hit

/-- The resolution part of `updateTooltip(x, y)`: three passes in priority
order (points, lines, polygons), each a reverse-order scan stopping at the
first match; the display part of the handler is not modelled. -/
noncomputable def resolveHit (v : View) (d : MapData) (x y : ℝ) : Option Hit :=
  match d.points.reverse.find? (fun p => pointHit v x y p) with
  | some p => some (Hit.pt p)
  | none =>
    match d.lines.reverse.find? (fun l => isPointNearLine v x y l) with
    | some l => some (Hit.ln l)
    | none =>
      match d.polygons.reverse.find? (fun g => isPointInPolygon v x y g) with
      | some g => some (Hit.pg g)
      | none => none

/-! ## Python ingestion layer (source: `add_points`, `add_lines`,
    `add_polygons`, `clear`, `_normalize_coords`, `_update_bounds`,
    lines 121-350, 451-462, 592-622 of `html_export.py`) -/

/-- The mapping form of a coordinate accepted by `_normalize_coords`: the
optional numeric values stored under the accepted keys (a key that is absent
maps to `none`). -/
structure CoordDict where
  lat : Option ℝ
  latitude : Option ℝ
  y : Option ℝ
  lng : Option ℝ
  longitude : Option ℝ
  x : Option ℝ

/-- A coordinate item passed to `_normalize_coords`: a list/tuple
`[lat, lng, ...]`, a mapping, or any other value. -/
inductive Coord where
  | arr : ℝ → ℝ → Coord
  | dict : CoordDict → Coord
  | other : Coord

/-- Python `a or b` on an optional number: `None` and `0` are falsy, and the
final operand's value is returned unchanged when every earlier one is falsy. -/
noncomputable def pyOr (a b : Option ℝ) : Option ℝ :=
  match a with
  | some xv => if xv ≠ 0 then some xv else b
  | none => b

/-- `_normalize_coords(coords)`: list/tuple items keep their first two entries;
mapping items resolve each coordinate through a truth-value `or` chain
(`lat or latitude or y`, `lng or longitude or x`) and fall back to
`[0.0, 0.0]` when either resolves to `None`; other items become `[0.0, 0.0]`. -/
noncomputable def normalizeCoords (coords : List Coord) : List (ℝ × ℝ) :=
  coords.map fun c =>
    match c with
    | .arr a b => (a, b)
    | .dict d =>
      match pyOr (pyOr d.lat d.latitude) d.y, pyOr (pyOr d.lng d.longitude) d.x with
      | some la, some ln => (la, ln)
      | _, _ => (0, 0)
    | .other => (0, 0)

/-- The running bounds record `self._bounds`. -/
structure Bounds where
  min_lat : ℝ
  max_lat : ℝ
  min_lng : ℝ
  max_lng : ℝ

/-- `_update_bounds(lat, lng)`. -/
def updateBounds (b : Option Bounds) (lat lng : ℝ) : Option Bounds :=
  match b with
  | none => some ⟨lat, lat, lng, lng⟩
  | some b =>
    some ⟨min b.min_lat lat, max b.max_lat lat, min b.min_lng lng, max b.max_lng lng⟩

/-- The `for coord in ...: self._update_bounds(coord[0], coord[1])` loop. -/
def boundsOfCoords (b : Option Bounds) (cs : List (ℝ × ℝ)) : Option Bounds :=
  cs.foldl (fun b c => updateBounds b c.1 c.2) b

/-- The nested per-ring bounds loop of `add_polygons`. -/
def boundsOfRings (b : Option Bounds) (rings : List (List (ℝ × ℝ))) : Option Bounds :=
  rings.foldl (fun b r => boundsOfCoords b r) b

/-- A stored point feature (properties and style are irrelevant to the
modelled claims and omitted). -/
structure ExpPoint where
  lat : ℝ
  lng : ℝ

/-- A stored line feature. -/
structure ExpLine where
  coords : List (ℝ × ℝ)

/-- A stored polygon feature. -/
structure ExpPoly where
  rings : List (List (ℝ × ℝ))

/-- The mutable state of an `HtmlExport` instance: `_points`, `_lines`,
`_polygons`, `_bounds`. -/
structure ExportState where
  points : List ExpPoint
  lines : List ExpLine
  polygons : List ExpPoly
  bounds : Option Bounds

/-- One element of the list passed to `add_points`: the optional numeric value
found under each accepted coordinate key (`none` when the key is absent or
maps to `None`).  Non-coordinate properties do not affect feature admission
and are not modelled. -/
structure PointIn where
  lat : Option ℝ
  latitude : Option ℝ
  y : Option ℝ
  lng : Option ℝ
  longitude : Option ℝ
  lon : Option ℝ
  x : Option ℝ

/-- The `for key in (...)` scan of `add_points`: the first key whose value is
not `None` wins (`0` is accepted; the scan tests `is not None`, not
truthiness). -/
def firstSome (l : List (Option ℝ)) : Option ℝ :=
  match l with
  | [] => none
  | a :: r => match a with | some xv => some xv | none => firstSome r

/-- Resolved latitude of an `add_points` item: keys `lat`, `latitude`, `y`. -/
def PointIn.resolvedLat (p : PointIn) : Option ℝ :=
  firstSome [p.lat, p.latitude, p.y]

/-- Resolved longitude of an `add_points` item: keys `lng`, `longitude`,
`lon`, `x`. -/
def PointIn.resolvedLng (p : PointIn) : Option ℝ :=
  firstSome [p.lng, p.longitude, p.lon, p.x]

/-- The feature `add_points` would append for one item, or `none` when the
item is skipped. -/
def PointIn.feature? (p : PointIn) : Option ExpPoint :=
  match p.resolvedLat, p.resolvedLng with
  | some la, some ln => some ⟨la, ln⟩
  | _, _ => none

/-- The body of the `for point in points` loop of `add_points`: resolve lat
and lng; skip (print a diagnostic and continue) when either is `None`;
otherwise append the feature and update the bounds. -/
def addPointsStep (s : ExportState) (p : PointIn) : ExportState :=
  match p.resolvedLat, p.resolvedLng with
  | some la, some ln =>
    { s with
      points := s.points ++ [⟨la, ln⟩]
      bounds := updateBounds s.bounds la ln }
  | _, _ => s

/-- `add_points(points, ...)` (lines 167-198). -/
def addPoints (st : ExportState) (input : List PointIn) : ExportState :=
  input.foldl addPointsStep st

/-- One element of the list passed to `add_lines`: the optional coordinate
list found under each accepted key. -/
structure LineIn where
  coords : Option (List Coord)
  coordinates : Option (List Coord)
  path : Option (List Coord)
  latlngs : Option (List Coord)

/-- Python `a or b` over optional lists: `None` and the empty list are falsy. -/
def pyOrL (a b : Option (List Coord)) : Option (List Coord) :=
  match a with
  | some l => if l.isEmpty then b else some l
  | none => b

/-- The `line.get('coords') or line.get('coordinates') or line.get('path') or
line.get('latlngs')` chain. -/
def LineIn.resolvedCoords (l : LineIn) : Option (List Coord) :=
  pyOrL (pyOrL (pyOrL l.coords l.coordinates) l.path) l.latlngs

/-- The feature `add_lines` would append for one item, or `none` when the item
is skipped. -/
noncomputable def LineIn.feature? (l : LineIn) : Option ExpLine :=
  match l.resolvedCoords with
  | some cs => if cs.length < 2 then none else some ⟨normalizeCoords cs⟩
  | none => none

/-- The body of the `for line in lines` loop of `add_lines`: skip when the
resolved coordinate list is missing or shorter than two entries; otherwise
append the normalized feature and fold every normalized coordinate into the
bounds. -/
noncomputable def addLinesStep (s : ExportState) (l : LineIn) : ExportState :=
  match l.resolvedCoords with
  | some cs =>
    if cs.length < 2 then s
    else
      { s with
        lines := s.lines ++ [⟨normalizeCoords cs⟩]
        bounds := boundsOfCoords s.bounds (normalizeCoords cs) }
  | none => s

/-- `add_lines(lines, ...)` (lines 240-262). -/
noncomputable def addLines (st : ExportState) (input : List LineIn) : ExportState :=
  input.foldl addLinesStep st

/-- The coordinate payload of a polygon: the source distinguishes the
multi-ring form (first element a non-empty list whose first element is itself
a list) from the single-ring form by `isinstance` tests; the two forms are
modelled as constructors. -/
inductive PolyCoords where
  | single : List Coord → PolyCoords
  | multi : List (List Coord) → PolyCoords

/-- Python truthiness of a coordinate payload (empty list is falsy). -/
def PolyCoords.isEmptyP : PolyCoords → Bool
  | .single l => l.isEmpty
  | .multi l => l.isEmpty

/-- One element of the list passed to `add_polygons`. -/
structure PolyIn where
  coords : Option PolyCoords
  coordinates : Option PolyCoords
  ring : Option PolyCoords
  latlngs : Option PolyCoords

/-- Python `a or b` over optional polygon payloads. -/
def pyOrP (a b : Option PolyCoords) : Option PolyCoords :=
  match a with
  | some l => if l.isEmptyP then b else some l
  | none => b

/-- The `polygon.get('coords') or polygon.get('coordinates') or
polygon.get('ring') or polygon.get('latlngs')` chain. -/
def PolyIn.resolvedCoords (p : PolyIn) : Option PolyCoords :=
  pyOrP (pyOrP (pyOrP p.coords p.coordinates) p.ring) p.latlngs

/-- The feature `add_polygons` would append for one item, or `none` when the
item is skipped. -/
noncomputable def PolyIn.feature? (p : PolyIn) : Option ExpPoly :=
  match p.resolvedCoords with
  | none => none
  | some pc =>
    if pc.isEmptyP then none
    else
      match pc with
      | .multi ringList =>
        if (ringList.filter (fun r => 3 ≤ r.length)).isEmpty then none
        else some ⟨(ringList.filter (fun r => 3 ≤ r.length)).map normalizeCoords⟩
      | .single cs =>
        if cs.length < 3 then none else some ⟨[normalizeCoords cs]⟩

/-- The body of the `for polygon in polygons` loop of `add_polygons`: skip when
no coordinates resolve (or they are empty); in the multi-ring form keep only
rings with at least three points and skip when none remain; in the single-ring
form skip when fewer than three coordinates; otherwise append the normalized
rings and fold every coordinate of every kept ring into the bounds. -/
noncomputable def addPolygonsStep (s : ExportState) (pg : PolyIn) : ExportState :=
  match pg.resolvedCoords with
  | none => s
  | some pc =>
    if pc.isEmptyP then s
    else
      match pc with
      | .multi ringList =>
        if (ringList.filter (fun r => 3 ≤ r.length)).isEmpty then s
        else
          { s with
            polygons := s.polygons ++
              [⟨(ringList.filter (fun r => 3 ≤ r.length)).map normalizeCoords⟩]
            bounds := boundsOfRings s.bounds
              ((ringList.filter (fun r => 3 ≤ r.length)).map normalizeCoords) }
      | .single cs =>
        if cs.length < 3 then s
        else
          { s with
            polygons := s.polygons ++ [⟨[normalizeCoords cs]⟩]
            bounds := boundsOfRings s.bounds [normalizeCoords cs] }

/-- `add_polygons(polygons, ...)` (lines 310-350). -/
noncomputable def addPolygons (st : ExportState) (input : List PolyIn) : ExportState :=
  input.foldl addPolygonsStep st

/-- `clear()` (lines 451-462): reset all feature lists and the bounds. -/
def clear (_st : ExportState) : ExportState := ⟨[], [], [], none⟩

/-- The bounds may only widen (or appear): this is the spec's monotonicity
relation on the optional bounds record. -/
def boundsWidened (b b' : Option Bounds) : Prop :=
  ∀ bb, b = some bb → ∃ bb', b' = some bb' ∧
    bb'.min_lat ≤ bb.min_lat ∧ bb.max_lat ≤ bb'.max_lat ∧
    bb'.min_lng ≤ bb.min_lng ∧ bb.max_lng ≤ bb'.max_lng

/-! ## Concrete states and data used by counterexamples and witnesses -/

/-- View for hit-test scenarios: center (0,0), zoom 1 (scale 512), 512×512. -/
def vHit : View := ⟨0, 0, 1, 512, 512⟩

/-- Latitude whose normalized Mercator y is `1/2 - n/(2π)`; used to build
concrete geographic test data whose projection is exactly computable. -/
noncomputable def gdLat (n : ℝ) : ℝ := 180 / Real.pi * Real.arctan (Real.sinh n)

/-- First-added point of the C6 scenario (radius 8 at the origin). -/
def pC6a : PointFeat := ⟨0, 0, 8⟩

/-- Later-added point of the C6 scenario (radius 9 at the same origin). -/
def pC6b : PointFeat := ⟨0, 0, 9⟩

/-- The C6 scenario: two coincident points. -/
def dC6 : MapData := ⟨[pC6a, pC6b], [], []⟩

/-- Square polygon (half-width 64 px at `vHit`) with a centered square hole
(half-width 32 px). -/
noncomputable def polyC7 : PolyFeat :=
  ⟨[[(gdLat (Real.pi / 4), -45), (gdLat (Real.pi / 4), 45),
     (gdLat (-(Real.pi / 4)), 45), (gdLat (-(Real.pi / 4)), -45)],
    [(gdLat (Real.pi / 8), -22.5), (gdLat (Real.pi / 8), 22.5),
     (gdLat (-(Real.pi / 8)), 22.5), (gdLat (-(Real.pi / 8)), -22.5)]]⟩

/-- Wheel counterexample state: center (85, 0) — the latitude-clamp boundary —
zoom 2, 512×512 canvas, idle gestures. -/
def stC2 : MapState := ⟨85, 0, 2, 512, 512, false, none, none⟩

/-- Wheel witness state: center (0, 0), zoom 2. -/
def stC2w : MapState := ⟨0, 0, 2, 512, 512, false, none, none⟩

/-- Pan counterexample state: center (0, 0), zoom 1, dragging from the canvas
center with the pre-drag center recorded. -/
def stC3 : MapState := ⟨0, 0, 1, 512, 512, true, some (256, 256), some (0, 0)⟩

/-- Pan witness state: dragging from pixel (200, 100). -/
def stC3w : MapState := ⟨0, 0, 1, 512, 512, true, some (200, 100), some (0, 0)⟩

/-- Pan state next to the antimeridian: center (0, 179), dragging from the
canvas center. -/
def stC4 : MapState := ⟨0, 179, 1, 512, 512, true, some (256, 256), some (0, 179)⟩

/-- An `add_points` item carrying lat -10, lng 0. -/
def ptC9a : PointIn := ⟨some (-10), none, none, some 0, none, none, none⟩

/-- An `add_points` item carrying lat 5, lng 0. -/
def ptC9b : PointIn := ⟨some 5, none, none, some 0, none, none, none⟩

/-- An export state with established bounds, used by the C9 witness. -/
def stC9 : ExportState := ⟨[], [], [], some ⟨1, 2, 3, 4⟩⟩

/-! # Theorems -/

/-! ## Projection facts -/

lemma TILE_SIZE_pos : (0 : ℝ) < TILE_SIZE := by norm_num [TILE_SIZE]

lemma scaleOf_pos (v : View) : 0 < scaleOf v :=
  mul_pos (Real.rpow_pos_of_pos two_pos _) TILE_SIZE_pos

lemma scaleOf_ne_zero (v : View) : scaleOf v ≠ 0 := (scaleOf_pos v).ne'

/-- On `(-π/2, π/2)` the quantity `tan θ + 1/cos θ` fed to `Math.log` is positive. -/
lemma tan_add_inv_cos_pos {θ : ℝ} (h1 : -(Real.pi / 2) < θ) (h2 : θ < Real.pi / 2) :
    0 < Real.tan θ + 1 / Real.cos θ := by
  have hc : 0 < Real.cos θ := Real.cos_pos_of_mem_Ioo ⟨h1, h2⟩
  have hs : -1 < Real.sin θ := by
    rcases lt_or_eq_of_le (Real.neg_one_le_sin θ) with h | h
    · exact h
    · exfalso
      have := Real.sin_sq_add_cos_sq θ
      rw [← h] at this
      nlinarith
  rw [Real.tan_eq_sin_div_cos]
  have : Real.sin θ / Real.cos θ + 1 / Real.cos θ = (Real.sin θ + 1) / Real.cos θ := by ring
  rw [this]
  exact div_pos (by linarith) hc

/-- Forward key identity: `sinh (log (tan θ + 1/cos θ)) = tan θ` on `(-π/2, π/2)`. -/
lemma sinh_log_tan_add_inv_cos {θ : ℝ} (h1 : -(Real.pi / 2) < θ) (h2 : θ < Real.pi / 2) :
    Real.sinh (Real.log (Real.tan θ + 1 / Real.cos θ)) = Real.tan θ := by
  have hc : 0 < Real.cos θ := Real.cos_pos_of_mem_Ioo ⟨h1, h2⟩
  have hx : 0 < Real.tan θ + 1 / Real.cos θ := tan_add_inv_cos_pos h1 h2
  rw [Real.sinh_log hx]
  have hinv : (Real.tan θ + 1 / Real.cos θ)⁻¹ = 1 / Real.cos θ - Real.tan θ := by
    refine inv_eq_of_mul_eq_one_right ?_
    rw [Real.tan_eq_sin_div_cos]
    field_simp
    nlinarith [Real.sin_sq_add_cos_sq θ]
  rw [hinv]; ring

/-- Inverse key identity: for every `n`,
`log (tan (arctan (sinh n)) + 1 / cos (arctan (sinh n))) = n`. -/
lemma log_tan_arctan_sinh (n : ℝ) :
    Real.log (Real.tan (Real.arctan (Real.sinh n))
      + 1 / Real.cos (Real.arctan (Real.sinh n))) = n := by
  rw [Real.tan_arctan, Real.cos_arctan]
  have h1 : Real.sqrt (1 + Real.sinh n ^ 2) = Real.cosh n := by
    rw [← Real.cosh_sq']
    exact Real.sqrt_sq (le_of_lt (Real.cosh_pos n))
  rw [one_div_one_div, h1, Real.sinh_add_cosh, Real.log_exp]

lemma half_exp_sub_exp_neg (n : ℝ) : 0.5 * (Real.exp n - Real.exp (-n)) = Real.sinh n := by
  rw [Real.sinh_eq]; ring

lemma latOfWorldY_eq_arctan_sinh (s worldY : ℝ) :
    latOfWorldY s worldY
      = 180 / Real.pi * Real.arctan (Real.sinh (Real.pi - 2 * Real.pi * worldY / s)) := by
  unfold latOfWorldY
  rw [half_exp_sub_exp_neg]

/-- `mercNorm` of a recovered latitude is exactly `worldY / s`. -/
lemma mercNorm_latOfWorldY {s : ℝ} (hs : s ≠ 0) (worldY : ℝ) :
    mercNorm (latOfWorldY s worldY) = worldY / s := by
  have hpi : Real.pi ≠ 0 := Real.pi_ne_zero
  rw [latOfWorldY_eq_arctan_sinh]
  have harg : 180 / Real.pi * Real.arctan (Real.sinh (Real.pi - 2 * Real.pi * worldY / s))
        * Real.pi / 180
      = Real.arctan (Real.sinh (Real.pi - 2 * Real.pi * worldY / s)) := by
    field_simp
  unfold mercNorm
  rw [harg, log_tan_arctan_sinh]
  field_simp
  ring

/-- Same-scale inverse-then-forward round trip, exact for every world y. -/
lemma mercWorldY_latOfWorldY {s : ℝ} (hs : s ≠ 0) (worldY : ℝ) :
    mercWorldY s (latOfWorldY s worldY) = worldY := by
  rw [mercWorldY, mercNorm_latOfWorldY hs]
  field_simp

/-- Cross-scale version: re-projecting a recovered latitude at scale `s'`
rescales the world y. -/
lemma mercWorldY_latOfWorldY_rescale {s : ℝ} (hs : s ≠ 0) (s' worldY : ℝ) :
    mercWorldY s' (latOfWorldY s worldY) = worldY / s * s' := by
  rw [mercWorldY, mercNorm_latOfWorldY hs]

/-- On `(-90, 90)` degrees, `latOfWorldY` inverts `mercWorldY` exactly. -/
lemma latOfWorldY_mercWorldY {s : ℝ} (hs : s ≠ 0) {lat : ℝ}
    (h1 : -90 < lat) (h2 : lat < 90) :
    latOfWorldY s (mercWorldY s lat) = lat := by
  have hpi : (0 : ℝ) < Real.pi := Real.pi_pos
  have hθ1 : -(Real.pi / 2) < lat * Real.pi / 180 := by nlinarith
  have hθ2 : lat * Real.pi / 180 < Real.pi / 2 := by nlinarith
  have hn : Real.pi - 2 * Real.pi * mercWorldY s lat / s
      = Real.log (Real.tan (lat * Real.pi / 180) + 1 / Real.cos (lat * Real.pi / 180)) := by
    unfold mercWorldY mercNorm
    field_simp
    ring
  rw [latOfWorldY_eq_arctan_sinh, hn, sinh_log_tan_add_inv_cos hθ1 hθ2,
    Real.arctan_tan hθ1 hθ2]
  field_simp
  ring

/-- Longitude round-trip is exact algebra, for every `lng`. -/
lemma pixelToLatLng_latlngToPixel_snd (v : View) (lat lng : ℝ) :
    (pixelToLatLng v (latlngToPixel v lat lng).1 (latlngToPixel v lat lng).2).2 = lng := by
  have hs : scaleOf v ≠ 0 := scaleOf_ne_zero v
  simp only [pixelToLatLng, latlngToPixel, mercWorldX, mercWorldY, getCenterPixel]
  field_simp
  ring

/-- Latitude round-trip is exact on `(-90, 90)`. -/
lemma pixelToLatLng_latlngToPixel_fst (v : View) {lat : ℝ} (lng : ℝ)
    (h1 : -90 < lat) (h2 : lat < 90) :
    (pixelToLatLng v (latlngToPixel v lat lng).1 (latlngToPixel v lat lng).2).1 = lat := by
  have hY : (latlngToPixel v lat lng).2 + (getCenterPixel v).2 - v.h / 2
      = mercWorldY (scaleOf v) lat := by
    simp only [latlngToPixel]; ring
  simp only [pixelToLatLng]
  rw [hY, latOfWorldY_mercWorldY (scaleOf_ne_zero v) h1 h2]

/-- Claim C1: for every lat in (-85,85), lng in (-180,180), and zoom in [1,20],
applying `pixelToLatLng` to the result of `latlngToPixel(lat,lng)` under the same
view state recovers (lat,lng) within 1e-6 (in fact exactly, over the reals). -/
theorem C1_projection_roundtrip (v : View) (lat lng : ℝ)
    (h1 : -85 < lat) (h2 : lat < 85) (h3 : -180 < lng) (h4 : lng < 180)
    (h5 : 1 ≤ v.zoom) (h6 : v.zoom ≤ 20) :
    |(pixelToLatLng v (latlngToPixel v lat lng).1 (latlngToPixel v lat lng).2).1 - lat| ≤ 1e-6 ∧
    |(pixelToLatLng v (latlngToPixel v lat lng).1 (latlngToPixel v lat lng).2).2 - lng| ≤ 1e-6 := by
  rw [pixelToLatLng_latlngToPixel_fst v lng (by linarith) (by linarith),
    pixelToLatLng_latlngToPixel_snd v lat lng]
  norm_num

/-- Witness for C1 at lat = 0, lng = 0, zoom = 2 on a 512×512 canvas. -/
theorem C1_projection_roundtrip_witness :
    |(pixelToLatLng ⟨0, 0, 2, 512, 512⟩
        (latlngToPixel ⟨0, 0, 2, 512, 512⟩ 0 0).1
        (latlngToPixel ⟨0, 0, 2, 512, 512⟩ 0 0).2).1 - 0| ≤ 1e-6 ∧
    |(pixelToLatLng ⟨0, 0, 2, 512, 512⟩
        (latlngToPixel ⟨0, 0, 2, 512, 512⟩ 0 0).1
        (latlngToPixel ⟨0, 0, 2, 512, 512⟩ 0 0).2).2 - 0| ≤ 1e-6 :=
  C1_projection_roundtrip ⟨0, 0, 2, 512, 512⟩ 0 0 (by norm_num) (by norm_num)
    (by norm_num) (by norm_num) (by norm_num) (by norm_num)

/-! ## Viewport facts -/

lemma normalizeLng_mem (lng : ℝ) :
    -180 ≤ normalizeLng lng ∧ normalizeLng lng ≤ 180 := by
  unfold normalizeLng
  split_ifs with h1 h2
  · constructor
    · have := Int.ceil_lt_add_one ((lng - 180) / 360)
      have h360 : (360 : ℝ) * ((⌈(lng - 180) / 360⌉ : ℤ) : ℝ) < lng - 180 + 360 := by
        nlinarith
      linarith
    · have := Int.le_ceil ((lng - 180) / 360)
      nlinarith
  · constructor
    · have := Int.le_ceil ((-180 - lng) / 360)
      nlinarith
    · have := Int.ceil_lt_add_one ((-180 - lng) / 360)
      have h360 : (360 : ℝ) * ((⌈(-180 - lng) / 360⌉ : ℤ) : ℝ) < -180 - lng + 360 := by
        nlinarith
      linarith
  · exact ⟨le_of_not_lt h2, le_of_not_lt h1⟩

lemma normalizeLng_eq_self {lng : ℝ} (h1 : -180 ≤ lng) (h2 : lng ≤ 180) :
    normalizeLng lng = lng := by
  unfold normalizeLng
  rw [if_neg (not_lt.2 h2), if_neg (not_lt.2 h1)]

lemma pixelToLatLng_def (v : View) (px py : ℝ) :
    pixelToLatLng v px py
      = (latOfWorldY (scaleOf v) (py + mercWorldY (scaleOf v) v.centerLat - v.h / 2),
         (px + mercWorldX (scaleOf v) v.centerLng - v.w / 2) / scaleOf v * 360 - 180) := rfl

lemma latlngToPixel_def (v : View) (lat lng : ℝ) :
    latlngToPixel v lat lng
      = (mercWorldX (scaleOf v) lng - mercWorldX (scaleOf v) v.centerLng + v.w / 2,
         mercWorldY (scaleOf v) lat - mercWorldY (scaleOf v) v.centerLat + v.h / 2) := rfl

lemma mercWorldX_inv {s : ℝ} (hs : s ≠ 0) (lng : ℝ) :
    mercWorldX s lng / s * 360 - 180 = lng := by
  unfold mercWorldX
  field_simp
  ring

/-- A pixel on the canvas's horizontal center line recovers a latitude equal to
the view's center latitude (when the latter is in (-90, 90)). -/
lemma pixelToLatLng_centerRow_fst (v : View) (px : ℝ)
    (h1 : -90 < v.centerLat) (h2 : v.centerLat < 90) :
    (pixelToLatLng v px (v.h / 2)).1 = v.centerLat := by
  rw [pixelToLatLng_def]
  have harg : v.h / 2 + mercWorldY (scaleOf v) v.centerLat - v.h / 2
      = mercWorldY (scaleOf v) v.centerLat := by ring
  simp only [harg]
  exact latOfWorldY_mercWorldY (scaleOf_ne_zero v) h1 h2

/-- What `onMouseMove` actually does on the first move of a drag (so the
current center still equals the recorded pre-drag center) that is purely
horizontal by `dx` pixels: the center longitude moves by `+360·dx/scale`
(i.e. in the direction of the drag), the latitude is unchanged, and the
geographic point that was under the initial contact is re-projected to
`(ds.x - dx, ds.y)` — on the opposite side of the cursor `(ds.x + dx, ds.y)`,
not at it. -/
lemma onMouseMove_first_horizontal (st : MapState) (ds : ℝ × ℝ) (dx : ℝ)
    (hdrag : st.isDragging = true) (hds : st.dragStart = some ds)
    (hdcs : st.dragCenterStart = some (st.centerLat, st.centerLng))
    (h1 : -90 < st.centerLat) (h2 : st.centerLat < 90) :
    (onMouseMove st (ds.1 + dx) ds.2).centerLat = st.centerLat ∧
    (onMouseMove st (ds.1 + dx) ds.2).centerLng
      = st.centerLng + 360 * dx / scaleOf st.view ∧
    latlngToPixel (onMouseMove st (ds.1 + dx) ds.2).view
        (pixelToLatLng st.view ds.1 ds.2).1 (pixelToLatLng st.view ds.1 ds.2).2
      = (ds.1 - dx, ds.2) := by
  have hs : scaleOf st.view ≠ 0 := scaleOf_ne_zero st.view
  have hvlat : st.view.centerLat = st.centerLat := rfl
  have hvlng : st.view.centerLng = st.centerLng := rfl
  have hvh : st.view.h = st.h := rfl
  have hvw : st.view.w = st.w := rfl
  have hdx : ds.1 + dx - ds.1 = dx := by ring
  have hdy : ds.2 - ds.2 = 0 := by ring
  have hred : onMouseMove st (ds.1 + dx) ds.2 =
      { st with
        centerLat := st.centerLat
          - ((pixelToLatLng st.view (st.w / 2 - dx) (st.h / 2 - 0)).1
            - (pixelToLatLng st.view (st.w / 2) (st.h / 2)).1)
        centerLng := st.centerLng
          - ((pixelToLatLng st.view (st.w / 2 - dx) (st.h / 2 - 0)).2
            - (pixelToLatLng st.view (st.w / 2) (st.h / 2)).2) } := by
    simp only [onMouseMove, hdrag, hds, hdcs, hdx, hdy]
  have hstart1 : (pixelToLatLng st.view (st.w / 2) (st.h / 2)).1 = st.centerLat := by
    rw [← hvh, pixelToLatLng_centerRow_fst st.view _ (hvlat ▸ h1) (hvlat ▸ h2), hvlat]
  have hend1 : (pixelToLatLng st.view (st.w / 2 - dx) (st.h / 2 - 0)).1 = st.centerLat := by
    have hz : st.h / 2 - 0 = st.view.h / 2 := by rw [hvh]; ring
    rw [hz, pixelToLatLng_centerRow_fst st.view _ (hvlat ▸ h1) (hvlat ▸ h2), hvlat]
  have hstart2 : (pixelToLatLng st.view (st.w / 2) (st.h / 2)).2 = st.centerLng := by
    rw [pixelToLatLng_def]
    simp only [hvlng, hvw]
    have : st.w / 2 + mercWorldX (scaleOf st.view) st.centerLng - st.w / 2
        = mercWorldX (scaleOf st.view) st.centerLng := by ring
    rw [this, mercWorldX_inv hs]
  have hend2 : (pixelToLatLng st.view (st.w / 2 - dx) (st.h / 2 - 0)).2
      = st.centerLng - 360 * dx / scaleOf st.view := by
    rw [pixelToLatLng_def]
    simp only [hvlng, hvw]
    unfold mercWorldX
    field_simp
    ring
  have hclat : (onMouseMove st (ds.1 + dx) ds.2).centerLat = st.centerLat := by
    rw [hred]
    simp only [hend1, hstart1]
    ring
  have hclng : (onMouseMove st (ds.1 + dx) ds.2).centerLng
      = st.centerLng + 360 * dx / scaleOf st.view := by
    rw [hred]
    simp only [hend2, hstart2]
    ring
  refine ⟨hclat, hclng, ?_⟩
  have hview : (onMouseMove st (ds.1 + dx) ds.2).view
      = ⟨st.centerLat, st.centerLng + 360 * dx / scaleOf st.view, st.zoom, st.w, st.h⟩ := by
    have hz : (onMouseMove st (ds.1 + dx) ds.2).zoom = st.zoom := by rw [hred]
    have hw : (onMouseMove st (ds.1 + dx) ds.2).w = st.w := by rw [hred]
    have hh : (onMouseMove st (ds.1 + dx) ds.2).h = st.h := by rw [hred]
    unfold MapState.view
    rw [hclat, hclng, hz, hw, hh]
    rfl
  rw [hview]
  have hsc : scaleOf (⟨st.centerLat, st.centerLng + 360 * dx / scaleOf st.view,
      st.zoom, st.w, st.h⟩ : View) = scaleOf st.view := rfl
  rw [latlngToPixel_def]
  simp only [hsc]
  rw [pixelToLatLng_def]
  simp only [hvlat, hvlng, hvw, hvh]
  refine Prod.ext ?_ ?_
  · show mercWorldX (scaleOf st.view)
        ((ds.1 + mercWorldX (scaleOf st.view) st.centerLng - st.w / 2) / scaleOf st.view * 360
          - 180)
        - mercWorldX (scaleOf st.view) (st.centerLng + 360 * dx / scaleOf st.view)
        + st.w / 2 = ds.1 - dx
    unfold mercWorldX
    field_simp
    ring
  · show mercWorldY (scaleOf st.view)
        (latOfWorldY (scaleOf st.view)
          (ds.2 + mercWorldY (scaleOf st.view) st.centerLat - st.h / 2))
        - mercWorldY (scaleOf st.view) st.centerLat + st.h / 2 = ds.2
    rw [mercWorldY_latOfWorldY hs]
    ring

lemma scaleOf_eq_512 {v : View} (h : v.zoom = 1) : scaleOf v = 512 := by
  unfold scaleOf
  rw [h, Real.rpow_one]
  norm_num [TILE_SIZE]

/-- Claim C3 (amended): on a pointer-move while Panning the code computes the
geo delta between the center pixel and the center pixel shifted by the negated
drag vector — evaluated at the current center and zoom — and subtracts it from
the pre-drag center.  This moves the center in the same direction as the drag,
so the geographic point under the initial contact does not stay at the cursor:
on the first, purely horizontal move by `dx` it is re-projected to
`(ds.x - dx, ds.y)`, i.e. `2·dx` pixels away from the cursor `(ds.x + dx, ds.y)`,
while the center longitude moves by `+360·dx/scale` and the latitude is
unchanged. -/
theorem C3_pan_amended (st : MapState) (ds : ℝ × ℝ) (dx : ℝ)
    (hdrag : st.isDragging = true) (hds : st.dragStart = some ds)
    (hdcs : st.dragCenterStart = some (st.centerLat, st.centerLng))
    (h1 : -90 < st.centerLat) (h2 : st.centerLat < 90) :
    (onMouseMove st (ds.1 + dx) ds.2).centerLat = st.centerLat ∧
    (onMouseMove st (ds.1 + dx) ds.2).centerLng
      = st.centerLng + 360 * dx / scaleOf st.view ∧
    latlngToPixel (onMouseMove st (ds.1 + dx) ds.2).view
        (pixelToLatLng st.view ds.1 ds.2).1 (pixelToLatLng st.view ds.1 ds.2).2
      = (ds.1 - dx, ds.2) :=
  onMouseMove_first_horizontal st ds dx hdrag hds hdcs h1 h2

/-- Witness for the amended C3: dragging right by 10 px from (200, 100) at
center (0,0), zoom 1, moves the center east and re-projects the grabbed point
to (190, 100). -/
theorem C3_pan_amended_witness :
    (onMouseMove stC3w (200 + 10) 100).centerLat = 0 ∧
    (onMouseMove stC3w (200 + 10) 100).centerLng = 0 + 360 * 10 / scaleOf stC3w.view ∧
    latlngToPixel (onMouseMove stC3w (200 + 10) 100).view
        (pixelToLatLng stC3w.view 200 100).1 (pixelToLatLng stC3w.view 200 100).2
      = (200 - 10, 100) :=
  C3_pan_amended stC3w (200, 100) 10 rfl rfl rfl (by norm_num [stC3w]) (by norm_num [stC3w])

/-- Counterexample to claim C3: at center (0,0), zoom 1 (scale 512), on the
first drag move from the canvas center (256,256) to (266,256), the geographic
point that was under the initial contact re-projects to pixel (246, 256), not
to the cursor (266, 256) — the pan moves the content against the drag. -/
theorem C3_counterexample :
    latlngToPixel (onMouseMove stC3 266 256).view
        (pixelToLatLng stC3.view 256 256).1 (pixelToLatLng stC3.view 256 256).2
      ≠ (266, 256) := by
  have h := (onMouseMove_first_horizontal stC3 (256, 256) 10 rfl rfl rfl
    (by norm_num [stC3]) (by norm_num [stC3])).2.2
  have h266 : ((256, 256) : ℝ × ℝ).1 + 10 = 266 := by norm_num
  have hfst : ((256, 256) : ℝ × ℝ).1 = 256 := rfl
  have hsnd : ((256, 256) : ℝ × ℝ).2 = 256 := rfl
  rw [h266, hfst, hsnd] at h
  rw [h]
  intro heq
  have := congrArg Prod.fst heq
  simp only at this
  norm_num at this

/-- Counterexample to claim C4: a drag from (256,256) to (320,256) at center
(0,179), zoom 1 crosses the antimeridian, and `onMouseMove` applies no
longitude normalization: the new center longitude is 224 ∉ (-180, 180]. -/
theorem C4_counterexample :
    (onMouseMove stC4 320 256).centerLng = 224 ∧
    ¬(-180 < (onMouseMove stC4 320 256).centerLng ∧
      (onMouseMove stC4 320 256).centerLng ≤ 180) := by
  have h := (onMouseMove_first_horizontal stC4 (256, 256) 64 rfl rfl rfl
    (by norm_num [stC4]) (by norm_num [stC4])).2.1
  have h320 : ((256, 256) : ℝ × ℝ).1 + 64 = 320 := by norm_num
  have hsnd : ((256, 256) : ℝ × ℝ).2 = 256 := rfl
  rw [h320, hsnd] at h
  have hsc : scaleOf stC4.view = 512 := scaleOf_eq_512 rfl
  rw [hsc] at h
  have h224 : (onMouseMove stC4 320 256).centerLng = 224 := by
    rw [h]
    show (179 : ℝ) + 360 * 64 / 512 = 224
    norm_num
  refine ⟨h224, ?_⟩
  rw [h224]
  intro hmem
  norm_num at hmem

/-- Claim C2 (amended): for a wheel event that changes the zoom, the zoom moves
by exactly ±0.5 clamped to [1, 20] (the sign chosen by `deltaY`), and whenever
the derived new center needs no latitude clamping (|raw lat| ≤ 85) and no
longitude normalization (|raw lng| ≤ 180), the geographic point that was under
the pointer maps back exactly to the mouse pixel after the change.  When the
latitude clamp does fire, the anchor can move by many pixels (see the C2
counterexample). -/
theorem C2_wheel_anchor_amended (st : MapState) (mx my dY : ℝ)
    (hz : wheelNewZoom st dY ≠ st.zoom)
    (hz1 : 1 ≤ st.zoom) (hz2 : st.zoom ≤ 20)
    (hlat : |(wheelRawCenter st mx my dY).1| ≤ 85)
    (hlng : |(wheelRawCenter st mx my dY).2| ≤ 180) :
    ((0 < dY → (onWheel st mx my dY).zoom = max 1 (st.zoom - 0.5)) ∧
     (¬0 < dY → (onWheel st mx my dY).zoom = min 20 (st.zoom + 0.5))) ∧
    latlngToPixel (onWheel st mx my dY).view
        (wheelTarget st mx my).1 (wheelTarget st mx my).2 = (mx, my) := by
  have habs1 := abs_le.1 hlat
  have habs2 := abs_le.1 hlng
  have hclamp : max (-85 : ℝ) (min 85 (wheelRawCenter st mx my dY).1)
      = (wheelRawCenter st mx my dY).1 := by
    rw [min_eq_right habs1.2, max_eq_right habs1.1]
  have hnorm : normalizeLng (wheelRawCenter st mx my dY).2
      = (wheelRawCenter st mx my dY).2 :=
    normalizeLng_eq_self habs2.1 habs2.2
  have hred : onWheel st mx my dY =
      { st with
        centerLat := (wheelRawCenter st mx my dY).1
        centerLng := (wheelRawCenter st mx my dY).2
        zoom := wheelNewZoom st dY } := by
    simp only [onWheel, if_neg hz, hclamp, hnorm]
  constructor
  · constructor
    · intro hdy
      rw [hred]
      show wheelNewZoom st dY = max 1 (st.zoom - 0.5)
      unfold wheelNewZoom
      rw [if_pos hdy]
      have h05 : st.zoom + (-0.5 : ℝ) = st.zoom - 0.5 := by ring
      rw [h05, min_eq_right (by linarith : st.zoom - 0.5 ≤ 20)]
    · intro hdy
      rw [hred]
      show wheelNewZoom st dY = min 20 (st.zoom + 0.5)
      unfold wheelNewZoom
      rw [if_neg hdy]
      exact max_eq_right (le_min (by norm_num) (by linarith))
  · rw [hred]
    have hview : ({ st with
          centerLat := (wheelRawCenter st mx my dY).1
          centerLng := (wheelRawCenter st mx my dY).2
          zoom := wheelNewZoom st dY } : MapState).view
        = ⟨(wheelRawCenter st mx my dY).1, (wheelRawCenter st mx my dY).2,
           wheelNewZoom st dY, st.w, st.h⟩ := rfl
    rw [hview]
    have hs'pos : (0 : ℝ) < (2 : ℝ) ^ wheelNewZoom st dY * TILE_SIZE :=
      mul_pos (Real.rpow_pos_of_pos two_pos _) TILE_SIZE_pos
    have hs' : (2 : ℝ) ^ wheelNewZoom st dY * TILE_SIZE ≠ 0 := hs'pos.ne'
    have hsc : scaleOf ⟨(wheelRawCenter st mx my dY).1, (wheelRawCenter st mx my dY).2,
        wheelNewZoom st dY, st.w, st.h⟩
        = (2 : ℝ) ^ wheelNewZoom st dY * TILE_SIZE := rfl
    have hraw1 : (wheelRawCenter st mx my dY).1
        = latOfWorldY ((2 : ℝ) ^ wheelNewZoom st dY * TILE_SIZE)
            (mercWorldY ((2 : ℝ) ^ wheelNewZoom st dY * TILE_SIZE)
              (wheelTarget st mx my).1 - my + st.h / 2) := rfl
    have hraw2 : (wheelRawCenter st mx my dY).2
        = (mercWorldX ((2 : ℝ) ^ wheelNewZoom st dY * TILE_SIZE)
              (wheelTarget st mx my).2 - mx + st.w / 2)
            / ((2 : ℝ) ^ wheelNewZoom st dY * TILE_SIZE) * 360 - 180 := rfl
    rw [latlngToPixel_def]
    simp only [hsc]
    refine Prod.ext ?_ ?_
    · show mercWorldX ((2 : ℝ) ^ wheelNewZoom st dY * TILE_SIZE) (wheelTarget st mx my).2
          - mercWorldX ((2 : ℝ) ^ wheelNewZoom st dY * TILE_SIZE)
              (wheelRawCenter st mx my dY).2 + st.w / 2 = mx
      rw [hraw2]
      unfold mercWorldX
      field_simp
      ring
    · show mercWorldY ((2 : ℝ) ^ wheelNewZoom st dY * TILE_SIZE) (wheelTarget st mx my).1
          - mercWorldY ((2 : ℝ) ^ wheelNewZoom st dY * TILE_SIZE)
              (wheelRawCenter st mx my dY).1 + st.h / 2 = my
      rw [hraw1, mercWorldY_latOfWorldY hs']
      ring

lemma wheelTarget_stC2w : wheelTarget stC2w 256 256 = (0, 0) := by
  have hsne : scaleOf stC2w.view ≠ 0 := scaleOf_ne_zero _
  have h1 : (pixelToLatLng stC2w.view 256 256).1 = 0 := by
    rw [pixelToLatLng_def]
    show latOfWorldY (scaleOf stC2w.view)
        (256 + mercWorldY (scaleOf stC2w.view) 0 - 512 / 2) = 0
    have harg : (256 : ℝ) + mercWorldY (scaleOf stC2w.view) 0 - 512 / 2
        = mercWorldY (scaleOf stC2w.view) 0 := by ring
    rw [harg]
    exact latOfWorldY_mercWorldY hsne (by norm_num) (by norm_num)
  have h2 : (pixelToLatLng stC2w.view 256 256).2 = 0 := by
    rw [pixelToLatLng_def]
    show (256 + mercWorldX (scaleOf stC2w.view) 0 - 512 / 2) / scaleOf stC2w.view * 360
        - 180 = 0
    have harg : (256 : ℝ) + mercWorldX (scaleOf stC2w.view) 0 - 512 / 2
        = mercWorldX (scaleOf stC2w.view) 0 := by ring
    rw [harg, mercWorldX_inv hsne]
  show ((pixelToLatLng stC2w.view 256 256).1,
      stC2w.centerLng + normalizeLng ((pixelToLatLng stC2w.view 256 256).2
        - stC2w.centerLng)) = (0, 0)
  rw [h1, h2]
  show ((0 : ℝ), (0 : ℝ) + normalizeLng ((0 : ℝ) - 0)) = (0, 0)
  rw [show (0 : ℝ) - 0 = 0 from by norm_num,
    normalizeLng_eq_self (by norm_num) (by norm_num)]
  norm_num

lemma wheelNewZoom_stC2w : wheelNewZoom stC2w (-1) = 2.5 := by
  unfold wheelNewZoom
  rw [if_neg (by norm_num : ¬(0 : ℝ) < -1)]
  show max 1 (min 20 ((2 : ℝ) + 0.5)) = 2.5
  rw [show (2 : ℝ) + 0.5 = 2.5 from by norm_num,
    min_eq_right (by norm_num : (2.5 : ℝ) ≤ 20),
    max_eq_right (by norm_num : (1 : ℝ) ≤ 2.5)]

lemma wheelRaw_stC2w : wheelRawCenter stC2w 256 256 (-1) = (0, 0) := by
  have hs'ne : (2 : ℝ) ^ wheelNewZoom stC2w (-1) * TILE_SIZE ≠ 0 :=
    (mul_pos (Real.rpow_pos_of_pos two_pos _) TILE_SIZE_pos).ne'
  show (latOfWorldY ((2 : ℝ) ^ wheelNewZoom stC2w (-1) * TILE_SIZE)
      (mercWorldY ((2 : ℝ) ^ wheelNewZoom stC2w (-1) * TILE_SIZE)
        (wheelTarget stC2w 256 256).1 - 256 + 512 / 2),
    (mercWorldX ((2 : ℝ) ^ wheelNewZoom stC2w (-1) * TILE_SIZE)
        (wheelTarget stC2w 256 256).2 - 256 + 512 / 2)
      / ((2 : ℝ) ^ wheelNewZoom stC2w (-1) * TILE_SIZE) * 360 - 180) = (0, 0)
  rw [wheelTarget_stC2w]
  refine Prod.ext ?_ ?_
  · show latOfWorldY ((2 : ℝ) ^ wheelNewZoom stC2w (-1) * TILE_SIZE)
        (mercWorldY ((2 : ℝ) ^ wheelNewZoom stC2w (-1) * TILE_SIZE) 0 - 256 + 512 / 2) = 0
    have harg : mercWorldY ((2 : ℝ) ^ wheelNewZoom stC2w (-1) * TILE_SIZE) 0 - 256 + 512 / 2
        = mercWorldY ((2 : ℝ) ^ wheelNewZoom stC2w (-1) * TILE_SIZE) 0 := by ring
    rw [harg]
    exact latOfWorldY_mercWorldY hs'ne (by norm_num) (by norm_num)
  · show (mercWorldX ((2 : ℝ) ^ wheelNewZoom stC2w (-1) * TILE_SIZE) 0 - 256 + 512 / 2)
        / ((2 : ℝ) ^ wheelNewZoom stC2w (-1) * TILE_SIZE) * 360 - 180 = 0
    have harg : mercWorldX ((2 : ℝ) ^ wheelNewZoom stC2w (-1) * TILE_SIZE) 0 - 256 + 512 / 2
        = mercWorldX ((2 : ℝ) ^ wheelNewZoom stC2w (-1) * TILE_SIZE) 0 := by ring
    rw [harg, mercWorldX_inv hs'ne]

/-- Witness for the amended C2: at center (0,0), zoom 2, a wheel-in at the
canvas center changes the zoom to 2.5 and maps the anchored geographic point
back to the mouse pixel exactly. -/
theorem C2_wheel_anchor_amended_witness :
    ((0 < (-1 : ℝ) → (onWheel stC2w 256 256 (-1)).zoom = max 1 (stC2w.zoom - 0.5)) ∧
     (¬0 < (-1 : ℝ) → (onWheel stC2w 256 256 (-1)).zoom = min 20 (stC2w.zoom + 0.5))) ∧
    latlngToPixel (onWheel stC2w 256 256 (-1)).view
        (wheelTarget stC2w 256 256).1 (wheelTarget stC2w 256 256).2 = (256, 256) :=
  C2_wheel_anchor_amended stC2w 256 256 (-1)
    (by rw [wheelNewZoom_stC2w]; norm_num [stC2w])
    (by norm_num [stC2w]) (by norm_num [stC2w])
    (by rw [wheelRaw_stC2w]; norm_num)
    (by rw [wheelRaw_stC2w]; norm_num)

/-- Counterexample to claim C2: at center (85, 0) — inside the legal center
range — zoom 2 on a 512×512 canvas, a wheel-in (deltaY < 0) with the pointer
at (256, 0) has zoom 2 → 2.5 in [1, 20], yet the geographic point that was
under the pointer re-projects 256·(√2 - 1) ≈ 106 pixels below it, because the
computed new center latitude exceeds 85 and is clamped.  This violates the
claimed 1 px anchor bound. -/
theorem C2_counterexample :
    (onWheel stC2 256 0 (-1)).zoom = 2.5 ∧
    1 < |(latlngToPixel (onWheel stC2 256 0 (-1)).view
        (wheelTarget stC2 256 0).1 (wheelTarget stC2 256 0).2).2 - 0| := by
  have hpi : (0 : ℝ) < Real.pi := Real.pi_pos
  have hpine : Real.pi ≠ 0 := Real.pi_ne_zero
  have hz25 : wheelNewZoom stC2 (-1) = 2.5 := by
    unfold wheelNewZoom
    rw [if_neg (by norm_num : ¬(0 : ℝ) < -1)]
    show max 1 (min 20 ((2 : ℝ) + 0.5)) = 2.5
    rw [show (2 : ℝ) + 0.5 = 2.5 from by norm_num,
      min_eq_right (by norm_num : (2.5 : ℝ) ≤ 20),
      max_eq_right (by norm_num : (1 : ℝ) ≤ 2.5)]
  have hzne : wheelNewZoom stC2 (-1) ≠ stC2.zoom := by
    rw [hz25]; show (2.5 : ℝ) ≠ 2; norm_num
  have hsV : scaleOf stC2.view = 1024 := by
    show (2 : ℝ) ^ (2 : ℝ) * TILE_SIZE = 1024
    rw [show (2 : ℝ) ^ (2 : ℝ) = 4 from by norm_num]
    norm_num [TILE_SIZE]
  set r := Real.sqrt 2 with hrdef
  have hr2 : r ^ 2 = 2 := Real.sq_sqrt (by norm_num)
  have hrpos : 0 < r := Real.sqrt_pos.2 (by norm_num)
  have hrne : r ≠ 0 := hrpos.ne'
  have hr1 : 1 < r := by nlinarith
  have hs'eq : (2 : ℝ) ^ wheelNewZoom stC2 (-1) * TILE_SIZE = 1024 * r := by
    rw [hz25, show (2.5 : ℝ) = 2 + 0.5 from by norm_num, Real.rpow_add two_pos,
      show (2 : ℝ) ^ (2 : ℝ) = 4 from by norm_num,
      show (2 : ℝ) ^ (0.5 : ℝ) = Real.sqrt 2 from by
        rw [show (0.5 : ℝ) = 1 / 2 from by norm_num, ← Real.sqrt_eq_rpow],
      hrdef]
    show 4 * r * (256 : ℝ) = 1024 * r
    ring
  set A := Real.log (Real.tan (85 * Real.pi / 180) + 1 / Real.cos (85 * Real.pi / 180))
    with hAdef
  have hmercA : mercNorm 85 = (1 - A / Real.pi) / 2 := rfl
  have hθ1 : -(Real.pi / 2) < 85 * Real.pi / 180 := by nlinarith
  have hθ2 : 85 * Real.pi / 180 < Real.pi / 2 := by nlinarith
  have h85 : (85 : ℝ) = 180 / Real.pi * Real.arctan (Real.sinh A) := by
    rw [hAdef, sinh_log_tan_add_inv_cos hθ1 hθ2, Real.arctan_tan hθ1 hθ2]
    field_simp
    ring
  have hsne : scaleOf stC2.view ≠ 0 := scaleOf_ne_zero _
  have ht2 : (wheelTarget stC2 256 0).2 = 0 := by
    show stC2.centerLng + normalizeLng ((pixelToLatLng stC2.view 256 0).2
      - stC2.centerLng) = 0
    have h2' : (pixelToLatLng stC2.view 256 0).2 = 0 := by
      rw [pixelToLatLng_def]
      show (256 + mercWorldX (scaleOf stC2.view) 0 - 512 / 2) / scaleOf stC2.view * 360
          - 180 = 0
      have harg : (256 : ℝ) + mercWorldX (scaleOf stC2.view) 0 - 512 / 2
          = mercWorldX (scaleOf stC2.view) 0 := by ring
      rw [harg, mercWorldX_inv hsne]
    rw [h2']
    show (0 : ℝ) + normalizeLng ((0 : ℝ) - 0) = 0
    rw [show (0 : ℝ) - 0 = 0 from by norm_num,
      normalizeLng_eq_self (by norm_num) (by norm_num)]
    norm_num
  have ht1 : (wheelTarget stC2 256 0).1 = latOfWorldY 1024 (mercWorldY 1024 85 - 256) := by
    show (pixelToLatLng stC2.view 256 0).1 = _
    rw [pixelToLatLng_def]
    show latOfWorldY (scaleOf stC2.view)
        (0 + mercWorldY (scaleOf stC2.view) 85 - 512 / 2) = _
    rw [hsV]
    have harg : (0 : ℝ) + mercWorldY 1024 85 - 512 / 2 = mercWorldY 1024 85 - 256 := by
      ring
    rw [harg]
  have hY0 : mercWorldY 1024 85 - 256 = 256 - 512 * A / Real.pi := by
    unfold mercWorldY
    rw [hmercA]
    field_simp
    ring
  have hs'ne : (2 : ℝ) ^ wheelNewZoom stC2 (-1) * TILE_SIZE ≠ 0 := by
    rw [hs'eq]; positivity
  have hraw2 : (wheelRawCenter stC2 256 0 (-1)).2 = 0 := by
    show (mercWorldX ((2 : ℝ) ^ wheelNewZoom stC2 (-1) * TILE_SIZE)
        (wheelTarget stC2 256 0).2 - 256 + stC2.w / 2)
      / ((2 : ℝ) ^ wheelNewZoom stC2 (-1) * TILE_SIZE) * 360 - 180 = 0
    rw [ht2]
    show (mercWorldX ((2 : ℝ) ^ wheelNewZoom stC2 (-1) * TILE_SIZE) 0 - 256 + 512 / 2)
      / ((2 : ℝ) ^ wheelNewZoom stC2 (-1) * TILE_SIZE) * 360 - 180 = 0
    have harg : mercWorldX ((2 : ℝ) ^ wheelNewZoom stC2 (-1) * TILE_SIZE) 0 - 256 + 512 / 2
        = mercWorldX ((2 : ℝ) ^ wheelNewZoom stC2 (-1) * TILE_SIZE) 0 := by ring
    rw [harg, mercWorldX_inv hs'ne]
  have hraw1 : (wheelRawCenter stC2 256 0 (-1)).1
      = latOfWorldY (1024 * r) ((256 - 512 * A / Real.pi) * r + 256) := by
    show latOfWorldY ((2 : ℝ) ^ wheelNewZoom stC2 (-1) * TILE_SIZE)
        (mercWorldY ((2 : ℝ) ^ wheelNewZoom stC2 (-1) * TILE_SIZE)
          (wheelTarget stC2 256 0).1 - 0 + stC2.h / 2) = _
    rw [ht1, hs'eq, mercWorldY_latOfWorldY_rescale (by norm_num : (1024 : ℝ) ≠ 0), hY0]
    show latOfWorldY (1024 * r)
        ((256 - 512 * A / Real.pi) / 1024 * (1024 * r) - 0 + 512 / 2) = _
    have harg : (256 - 512 * A / Real.pi) / 1024 * (1024 * r) - 0 + 512 / 2
        = (256 - 512 * A / Real.pi) * r + 256 := by
      field_simp
      ring
    rw [harg]
  have hn1 : Real.pi - 2 * Real.pi * ((256 - 512 * A / Real.pi) * r + 256) / (1024 * r)
      = A + (Real.pi / 2 - Real.pi / (2 * r)) := by
    field_simp
    ring
  have hgap : 0 < Real.pi / 2 - Real.pi / (2 * r) := by
    have h2r : Real.pi / (2 * r) < Real.pi / 2 :=
      div_lt_div_of_pos_left hpi (by norm_num) (by nlinarith)
    linarith
  have hraw1gt : 85 < (wheelRawCenter stC2 256 0 (-1)).1 := by
    rw [hraw1, latOfWorldY_eq_arctan_sinh, hn1]
    rw [h85]
    have hlt : Real.arctan (Real.sinh A)
        < Real.arctan (Real.sinh (A + (Real.pi / 2 - Real.pi / (2 * r)))) :=
      Real.arctan_strictMono (Real.sinh_lt_sinh.2 (by linarith))
    have h180pi : 0 < 180 / Real.pi := by positivity
    exact (mul_lt_mul_left h180pi).2 hlt
  have hclampLat : max (-85 : ℝ) (min 85 (wheelRawCenter stC2 256 0 (-1)).1) = 85 := by
    rw [min_eq_left (le_of_lt hraw1gt), max_eq_right (by norm_num : (-85 : ℝ) ≤ 85)]
  have hnorm0 : normalizeLng (wheelRawCenter stC2 256 0 (-1)).2 = 0 := by
    rw [hraw2]
    exact normalizeLng_eq_self (by norm_num) (by norm_num)
  have hwred : onWheel stC2 256 0 (-1) =
      { stC2 with
        centerLat := 85
        centerLng := 0
        zoom := wheelNewZoom stC2 (-1) } := by
    simp only [onWheel, if_neg hzne, hclampLat, hnorm0]
  constructor
  · rw [hwred]
    show wheelNewZoom stC2 (-1) = 2.5
    exact hz25
  · have hview : (onWheel stC2 256 0 (-1)).view
        = ⟨85, 0, wheelNewZoom stC2 (-1), 512, 512⟩ := by
      rw [hwred]; rfl
    rw [hview, latlngToPixel_def]
    show 1 < |(mercWorldY (scaleOf ⟨85, 0, wheelNewZoom stC2 (-1), 512, 512⟩)
        (wheelTarget stC2 256 0).1
      - mercWorldY (scaleOf ⟨85, 0, wheelNewZoom stC2 (-1), 512, 512⟩) 85 + 512 / 2) - 0|
    have hsc : scaleOf (⟨85, 0, wheelNewZoom stC2 (-1), 512, 512⟩ : View)
        = (2 : ℝ) ^ wheelNewZoom stC2 (-1) * TILE_SIZE := rfl
    rw [hsc, ht1, hs'eq, mercWorldY_latOfWorldY_rescale (by norm_num : (1024 : ℝ) ≠ 0),
      hY0, show mercWorldY (1024 * r) 85 = (1 - A / Real.pi) / 2 * (1024 * r) from by
        unfold mercWorldY; rw [hmercA]]
    have hyval : (256 - 512 * A / Real.pi) / 1024 * (1024 * r)
        - (1 - A / Real.pi) / 2 * (1024 * r) + 512 / 2 - 0 = 256 - 256 * r := by
      field_simp
      ring
    rw [hyval, abs_of_neg (by nlinarith : (256 : ℝ) - 256 * r < 0)]
    nlinarith

/-- Claim C4 (amended): after every wheel event that actually changes the zoom,
the new center longitude lies in [-180, 180] (the exact range of
`normalizeLng`; -180 is reachable when the un-normalized longitude is exactly
-180).  Pan events apply no normalization at all (see the C4 counterexample). -/
theorem C4_wheel_lng_normalized (st : MapState) (mx my dY : ℝ)
    (h : wheelNewZoom st dY ≠ st.zoom) :
    -180 ≤ (onWheel st mx my dY).centerLng ∧ (onWheel st mx my dY).centerLng ≤ 180 := by
  have hred : (onWheel st mx my dY).centerLng
      = normalizeLng (wheelRawCenter st mx my dY).2 := by
    simp only [onWheel, if_neg h]
  rw [hred]
  exact normalizeLng_mem _

/-- Witness for the amended C4 at center (0,0), zoom 2, wheel-in. -/
theorem C4_wheel_lng_normalized_witness :
    -180 ≤ (onWheel stC2w 256 256 (-1)).centerLng ∧
    (onWheel stC2w 256 256 (-1)).centerLng ≤ 180 :=
  C4_wheel_lng_normalized stC2w 256 256 (-1) (by
    unfold wheelNewZoom
    rw [if_neg (by norm_num : ¬(0 : ℝ) < -1)]
    show max 1 (min 20 ((2 : ℝ) + 0.5)) ≠ (2 : ℝ)
    rw [show (2 : ℝ) + 0.5 = 2.5 from by norm_num,
      min_eq_right (by norm_num : (2.5 : ℝ) ≤ 20),
      max_eq_right (by norm_num : (1 : ℝ) ≤ 2.5)]
    norm_num)

/-! ## Hit-tester facts -/

lemma find?_reverse_of_forall {α : Type} (p : α → Bool) (l : List α)
    (hall : ∀ a ∈ l, p a = false) : l.reverse.find? p = none := by
  rw [List.find?_eq_none]
  intro a ha
  rw [List.mem_reverse] at ha
  simp [hall a ha]

lemma find?_reverse_of_exists {α : Type} (p : α → Bool) (l : List α)
    (hex : ∃ a ∈ l, p a = true) :
    ∃ a l1 l2, l = l1 ++ a :: l2 ∧ p a = true ∧ (∀ b ∈ l2, p b = false) ∧
      l.reverse.find? p = some a := by
  induction l using List.reverseRecOn with
  | nil => simp at hex
  | append_singleton l a ih =>
    have hrev : (l ++ [a]).reverse = a :: l.reverse := by simp
    cases hpa : p a with
    | true =>
      refine ⟨a, l, [], rfl, hpa, by simp, ?_⟩
      rw [hrev]
      exact List.find?_cons_of_pos _ hpa
    | false =>
      obtain ⟨b, hbmem, hpb⟩ := hex
      rw [List.mem_append] at hbmem
      rcases hbmem with hb | hb
      · obtain ⟨c, l1, l2, hdec, hc, hafter, hfind⟩ := ih ⟨b, hb, hpb⟩
        refine ⟨c, l1, l2 ++ [a], by rw [hdec]; simp, hc, ?_, ?_⟩
        · intro q hq
          rw [List.mem_append] at hq
          rcases hq with hq | hq
          · exact hafter q hq
          · rw [List.mem_singleton] at hq
            subst hq
            exact hpa
        · rw [hrev, List.find?_cons_of_neg _ (by simp [hpa])]
          exact hfind
      · rw [List.mem_singleton] at hb
        subst hb
        rw [hpa] at hpb
        exact absurd hpb (by simp)

/-- Claim C5: for every query pixel the resolver runs three passes in fixed
priority order — points, then lines, then polygons — each scanning its
candidates in reverse insertion order so the latest-added candidate wins ties;
the first pass that produces a match wins and later passes are not run. -/
theorem C5_hit_priority (v : View) (d : MapData) (x y : ℝ) :
    ((∃ p ∈ d.points, pointHit v x y p = true) →
      ∃ p l1 l2, d.points = l1 ++ p :: l2 ∧ pointHit v x y p = true ∧
        (∀ q ∈ l2, pointHit v x y q = false) ∧
        resolveHit v d x y = some (Hit.pt p)) ∧
    ((∀ p ∈ d.points, pointHit v x y p = false) →
      (∃ l ∈ d.lines, isPointNearLine v x y l = true) →
      ∃ ln l1 l2, d.lines = l1 ++ ln :: l2 ∧ isPointNearLine v x y ln = true ∧
        (∀ q ∈ l2, isPointNearLine v x y q = false) ∧
        resolveHit v d x y = some (Hit.ln ln)) ∧
    ((∀ p ∈ d.points, pointHit v x y p = false) →
      (∀ l ∈ d.lines, isPointNearLine v x y l = false) →
      (∃ g ∈ d.polygons, isPointInPolygon v x y g = true) →
      ∃ g l1 l2, d.polygons = l1 ++ g :: l2 ∧ isPointInPolygon v x y g = true ∧
        (∀ q ∈ l2, isPointInPolygon v x y q = false) ∧
        resolveHit v d x y = some (Hit.pg g)) ∧
    ((∀ p ∈ d.points, pointHit v x y p = false) →
      (∀ l ∈ d.lines, isPointNearLine v x y l = false) →
      (∀ g ∈ d.polygons, isPointInPolygon v x y g = false) →
      resolveHit v d x y = none) := by
  refine ⟨?_, ?_, ?_, ?_⟩
  · intro hex
    obtain ⟨p, l1, l2, hdec, hp, hafter, hfind⟩ :=
      find?_reverse_of_exists (fun p => pointHit v x y p) d.points hex
    exact ⟨p, l1, l2, hdec, hp, hafter, by simp only [resolveHit, hfind]⟩
  · intro hpts hex
    have hnone := find?_reverse_of_forall (fun p => pointHit v x y p) d.points hpts
    obtain ⟨ln, l1, l2, hdec, hl, hafter, hfind⟩ :=
      find?_reverse_of_exists (fun l => isPointNearLine v x y l) d.lines hex
    exact ⟨ln, l1, l2, hdec, hl, hafter, by simp only [resolveHit, hnone, hfind]⟩
  · intro hpts hlns hex
    have hnone1 := find?_reverse_of_forall (fun p => pointHit v x y p) d.points hpts
    have hnone2 := find?_reverse_of_forall (fun l => isPointNearLine v x y l) d.lines hlns
    obtain ⟨g, l1, l2, hdec, hg, hafter, hfind⟩ :=
      find?_reverse_of_exists (fun g => isPointInPolygon v x y g) d.polygons hex
    exact ⟨g, l1, l2, hdec, hg, hafter,
      by simp only [resolveHit, hnone1, hnone2, hfind]⟩
  · intro hpts hlns hpgs
    have hnone1 := find?_reverse_of_forall (fun p => pointHit v x y p) d.points hpts
    have hnone2 := find?_reverse_of_forall (fun l => isPointNearLine v x y l) d.lines hlns
    have hnone3 := find?_reverse_of_forall (fun g => isPointInPolygon v x y g) d.polygons hpgs
    simp only [resolveHit, hnone1, hnone2, hnone3]

/-- Witness for C5: with no features at all, every pass fails and the resolver
reports no hit. -/
theorem C5_hit_priority_witness : resolveHit vHit ⟨[], [], []⟩ 0 0 = none :=
  (C5_hit_priority vHit ⟨[], [], []⟩ 0 0).2.2.2 (by simp) (by simp) (by simp)

lemma pixDist_self (x y : ℝ) : pixDist x y x y = 0 := by
  unfold pixDist
  simp

/-- A point whose projected center coincides with the query is hit (for a
nonnegative radius). -/
lemma pointHit_center {v : View} {x y : ℝ} {p : PointFeat}
    (hpx : latlngToPixel v p.lat p.lng = (x, y)) (hr : 0 ≤ p.radius) :
    pointHit v x y p = true := by
  unfold pointHit
  rw [hpx]
  apply decide_eq_true
  show pixDist x y x y ≤ p.radius + 3
  rw [pixDist_self]
  linarith

/-- Claim C6 (amended): a query at a point's projected center produces a point
match (the matched point is that point when no other candidate is within its
own threshold); a query within distance radius+3 of some point's center
produces a point match; a query at distance radius+4 or more from every
point's center matches no point. -/
theorem C6_point_threshold_amended (v : View) (d : MapData) (x y : ℝ) :
    (∀ p ∈ d.points, latlngToPixel v p.lat p.lng = (x, y) → 0 ≤ p.radius →
      ∃ q, resolveHit v d x y = some (Hit.pt q)) ∧
    (∀ p ∈ d.points,
      pixDist x y (latlngToPixel v p.lat p.lng).1 (latlngToPixel v p.lat p.lng).2
        ≤ p.radius + 3 →
      ∃ q, resolveHit v d x y = some (Hit.pt q)) ∧
    (∀ p ∈ d.points, latlngToPixel v p.lat p.lng = (x, y) → 0 ≤ p.radius →
      (∀ q ∈ d.points, q ≠ p → pointHit v x y q = false) →
      resolveHit v d x y = some (Hit.pt p)) ∧
    ((∀ p ∈ d.points,
        p.radius + 4 ≤ pixDist x y (latlngToPixel v p.lat p.lng).1
          (latlngToPixel v p.lat p.lng).2) →
      ∀ q, resolveHit v d x y ≠ some (Hit.pt q)) := by
  have hpass : ∀ p ∈ d.points, pointHit v x y p = true →
      ∃ q, resolveHit v d x y = some (Hit.pt q) := by
    intro p hp hhit
    obtain ⟨q, l1, l2, hdec, hq, hafter, hfind⟩ :=
      find?_reverse_of_exists (fun p => pointHit v x y p) d.points ⟨p, hp, hhit⟩
    exact ⟨q, by simp only [resolveHit, hfind]⟩
  refine ⟨?_, ?_, ?_, ?_⟩
  · intro p hp hpx hr
    exact hpass p hp (pointHit_center hpx hr)
  · intro p hp hdist
    exact hpass p hp (decide_eq_true hdist)
  · intro p hp hpx hr hothers
    obtain ⟨q, l1, l2, hdec, hq, hafter, hfind⟩ :=
      find?_reverse_of_exists (fun p => pointHit v x y p) d.points
        ⟨p, hp, pointHit_center hpx hr⟩
    have hqmem : q ∈ d.points := by
      rw [hdec]
      simp
    have hqp : q = p := by
      by_contra hne
      rw [hothers q hqmem hne] at hq
      exact absurd hq (by simp)
    subst hqp
    simp only [resolveHit, hfind]
  · intro hfar q
    have hall : ∀ p ∈ d.points, pointHit v x y p = false := by
      intro p hp
      unfold pointHit
      apply decide_eq_false
      intro hle
      have := hfar p hp
      linarith
    have hnone := find?_reverse_of_forall (fun p => pointHit v x y p) d.points hall
    simp only [resolveHit, hnone]
    cases hfl : d.lines.reverse.find? (fun l => isPointNearLine v x y l) with
    | some l => simp
    | none =>
      simp only []
      cases hfg : d.polygons.reverse.find? (fun g => isPointInPolygon v x y g) with
      | some g => simp
      | none => simp

/-- Witness for the amended C6: a single point at the origin is matched by a
query at its projected center. -/
theorem C6_point_threshold_amended_witness :
    ∃ q, resolveHit vHit ⟨[pC6a], [], []⟩ 256 256 = some (Hit.pt q) :=
  (C6_point_threshold_amended vHit ⟨[pC6a], [], []⟩ 256 256).1 pC6a (by simp)
    (by
      show latlngToPixel vHit 0 0 = (256, 256)
      rw [latlngToPixel_def]
      refine Prod.ext ?_ ?_
      · show mercWorldX (scaleOf vHit) 0 - mercWorldX (scaleOf vHit) 0 + 512 / 2 = 256
        ring
      · show mercWorldY (scaleOf vHit) 0 - mercWorldY (scaleOf vHit) 0 + 512 / 2 = 256
        ring)
    (by norm_num [pC6a])

/-- Counterexample to claim C6: two coincident points at the origin, the first
with radius 8 and the second with radius 9.  A query exactly at the projected
center of the first point matches the later-added second point, not "that
point": the reverse-order scan returns the latest-added candidate. -/
theorem C6_counterexample :
    latlngToPixel vHit pC6a.lat pC6a.lng = (256, 256) ∧
    pC6a ∈ dC6.points ∧
    resolveHit vHit dC6 256 256 = some (Hit.pt pC6b) ∧
    some (Hit.pt pC6b) ≠ some (Hit.pt pC6a) := by
  have hpix : latlngToPixel vHit 0 0 = (256, 256) := by
    rw [latlngToPixel_def]
    refine Prod.ext ?_ ?_
    · show mercWorldX (scaleOf vHit) 0 - mercWorldX (scaleOf vHit) 0 + 512 / 2 = 256
      ring
    · show mercWorldY (scaleOf vHit) 0 - mercWorldY (scaleOf vHit) 0 + 512 / 2 = 256
      ring
  have hhitb : pointHit vHit 256 256 pC6b = true :=
    pointHit_center (p := pC6b) hpix (by norm_num [pC6b])
  have hrev : dC6.points.reverse = [pC6b, pC6a] := rfl
  have hfind : dC6.points.reverse.find? (fun p => pointHit vHit 256 256 p) = some pC6b := by
    rw [hrev]
    exact List.find?_cons_of_pos _ hhitb
  refine ⟨hpix, by simp [dC6], by simp only [resolveHit, hfind], ?_⟩
  simp only [ne_eq, Option.some.injEq]
  intro h
  injection h with h2
  have := congrArg PointFeat.radius h2
  norm_num [pC6a, pC6b] at this

/-- Claim C7: in the polygon pass, a query inside the projected outer ring and
inside at least one projected hole ring (in particular inside exactly one)
reports no polygon match; inside the outer ring and inside zero hole rings it
reports a match.  Each containment test is the ray-casting parity loop
`pointInRing`. -/
theorem C7_polygon_parity (v : View) (px py : ℝ) (outer : List (ℝ × ℝ))
    (holes : List (List (ℝ × ℝ)))
    (houter : pointInRing px py (outer.map fun c => latlngToPixel v c.1 c.2) = true) :
    ((∃ hr ∈ holes,
        pointInRing px py (hr.map fun c => latlngToPixel v c.1 c.2) = true) →
      isPointInPolygon v px py ⟨outer :: holes⟩ = false) ∧
    ((∀ hr ∈ holes,
        pointInRing px py (hr.map fun c => latlngToPixel v c.1 c.2) = false) →
      isPointInPolygon v px py ⟨outer :: holes⟩ = true) := by
  have hred : isPointInPolygon v px py ⟨outer :: holes⟩
      = (pointInRing px py (outer.map fun c => latlngToPixel v c.1 c.2)
        && (holes.map fun ring => ring.map fun c => latlngToPixel v c.1 c.2).all
          fun hr => !pointInRing px py hr) := by
    simp only [isPointInPolygon, List.map_cons]
  constructor
  · intro ⟨hr, hmem, hin⟩
    rw [hred, houter, Bool.true_and]
    refine List.all_eq_false.2 ⟨hr.map fun c => latlngToPixel v c.1 c.2, ?_, ?_⟩
    · exact List.mem_map_of_mem _ hmem
    · simp [hin]
  · intro hall
    rw [hred, houter, Bool.true_and]
    refine List.all_eq_true.2 ?_
    intro pr hpr
    obtain ⟨hr, hmem, rfl⟩ := List.mem_map.1 hpr
    simp [hall hr hmem]

lemma mercNorm_zero : mercNorm 0 = 1 / 2 := by
  unfold mercNorm
  norm_num [Real.tan_zero, Real.cos_zero, Real.log_one]

lemma mercNorm_gdLat (n : ℝ) : mercNorm (gdLat n) = 1 / 2 - n / (2 * Real.pi) := by
  have hpine : Real.pi ≠ 0 := Real.pi_ne_zero
  have h1 : gdLat n = latOfWorldY 1 (1 / 2 - n / (2 * Real.pi)) := by
    rw [latOfWorldY_eq_arctan_sinh]
    unfold gdLat
    congr 2
    field_simp
  rw [h1, mercNorm_latOfWorldY one_ne_zero]
  norm_num

lemma latlngToPixel_vHit_gd (n lng : ℝ) :
    latlngToPixel vHit (gdLat n) lng
      = ((lng + 180) / 360 * 512, 256 - 256 * n / Real.pi) := by
  have hpine : Real.pi ≠ 0 := Real.pi_ne_zero
  have hs : scaleOf vHit = 512 := scaleOf_eq_512 rfl
  rw [latlngToPixel_def]
  refine Prod.ext ?_ ?_
  · show mercWorldX (scaleOf vHit) lng - mercWorldX (scaleOf vHit) 0 + 512 / 2 = _
    rw [hs]
    unfold mercWorldX
    ring
  · show mercWorldY (scaleOf vHit) (gdLat n) - mercWorldY (scaleOf vHit) 0 + 512 / 2 = _
    rw [hs]
    unfold mercWorldY
    rw [mercNorm_gdLat, mercNorm_zero]
    field_simp
    ring

lemma ringStep_toggle_up (px py : ℝ) (ins : Bool) (vi vj : ℝ × ℝ)
    (hy1 : py < vi.2) (hy2 : ¬py < vj.2)
    (hx : px < (vj.1 - vi.1) * (py - vi.2) / (vj.2 - vi.2) + vi.1) :
    ringStep px py ins (vi, vj) = !ins := by
  simp [ringStep, hy1, hy2, hx]

lemma ringStep_toggle_down (px py : ℝ) (ins : Bool) (vi vj : ℝ × ℝ)
    (hy1 : ¬py < vi.2) (hy2 : py < vj.2)
    (hx : px < (vj.1 - vi.1) * (py - vi.2) / (vj.2 - vi.2) + vi.1) :
    ringStep px py ins (vi, vj) = !ins := by
  simp [ringStep, hy1, hy2, hx]

lemma ringStep_skip_x (px py : ℝ) (ins : Bool) (vi vj : ℝ × ℝ)
    (hx : ¬px < (vj.1 - vi.1) * (py - vi.2) / (vj.2 - vi.2) + vi.1) :
    ringStep px py ins (vi, vj) = ins := by
  simp [ringStep, hx]

lemma ringStep_skip_y_tt (px py : ℝ) (ins : Bool) (vi vj : ℝ × ℝ)
    (hy1 : py < vi.2) (hy2 : py < vj.2) :
    ringStep px py ins (vi, vj) = ins := by
  simp [ringStep, hy1, hy2]

lemma ringStep_skip_y_ff (px py : ℝ) (ins : Bool) (vi vj : ℝ × ℝ)
    (hy1 : ¬py < vi.2) (hy2 : ¬py < vj.2) :
    ringStep px py ins (vi, vj) = ins := by
  simp [ringStep, hy1, hy2]

lemma pointInRing_square64 :
    pointInRing 256 256
      [((192 : ℝ), (192 : ℝ)), (320, 192), (320, 320), (192, 320)] = true := by
  unfold pointInRing
  have hedges : ringEdges [((192 : ℝ), (192 : ℝ)), (320, 192), (320, 320), (192, 320)]
      = [(((192 : ℝ), (192 : ℝ)), ((192 : ℝ), (320 : ℝ))),
         (((320 : ℝ), (192 : ℝ)), ((192 : ℝ), (192 : ℝ))),
         (((320 : ℝ), (320 : ℝ)), ((320 : ℝ), (192 : ℝ))),
         (((192 : ℝ), (320 : ℝ)), ((320 : ℝ), (320 : ℝ)))] := rfl
  rw [hedges]
  rw [List.foldl_cons, ringStep_skip_x 256 256 false _ _ (by norm_num)]
  rw [List.foldl_cons, ringStep_skip_y_ff 256 256 false _ _ (by norm_num) (by norm_num)]
  rw [List.foldl_cons, ringStep_toggle_up 256 256 false _ _ (by norm_num) (by norm_num)
    (by norm_num)]
  rw [List.foldl_cons, ringStep_skip_y_tt 256 256 (!false) _ _ (by norm_num) (by norm_num)]
  rfl

lemma pointInRing_square32 :
    pointInRing 256 256
      [((224 : ℝ), (224 : ℝ)), (288, 224), (288, 288), (224, 288)] = true := by
  unfold pointInRing
  have hedges : ringEdges [((224 : ℝ), (224 : ℝ)), (288, 224), (288, 288), (224, 288)]
      = [(((224 : ℝ), (224 : ℝ)), ((224 : ℝ), (288 : ℝ))),
         (((288 : ℝ), (224 : ℝ)), ((224 : ℝ), (224 : ℝ))),
         (((288 : ℝ), (288 : ℝ)), ((288 : ℝ), (224 : ℝ))),
         (((224 : ℝ), (288 : ℝ)), ((288 : ℝ), (288 : ℝ)))] := rfl
  rw [hedges]
  rw [List.foldl_cons, ringStep_skip_x 256 256 false _ _ (by norm_num)]
  rw [List.foldl_cons, ringStep_skip_y_ff 256 256 false _ _ (by norm_num) (by norm_num)]
  rw [List.foldl_cons, ringStep_toggle_up 256 256 false _ _ (by norm_num) (by norm_num)
    (by norm_num)]
  rw [List.foldl_cons, ringStep_skip_y_tt 256 256 (!false) _ _ (by norm_num) (by norm_num)]
  rfl

lemma polyC7_outer_pix :
    ([(gdLat (Real.pi / 4), (-45 : ℝ)), (gdLat (Real.pi / 4), 45),
      (gdLat (-(Real.pi / 4)), 45), (gdLat (-(Real.pi / 4)), -45)]).map
        (fun c => latlngToPixel vHit c.1 c.2)
      = [((192 : ℝ), (192 : ℝ)), (320, 192), (320, 320), (192, 320)] := by
  have hpine : Real.pi ≠ 0 := Real.pi_ne_zero
  have h1 : latlngToPixel vHit (gdLat (Real.pi / 4)) (-45) = (192, 192) := by
    rw [latlngToPixel_vHit_gd]
    refine Prod.ext (by norm_num) ?_
    show 256 - 256 * (Real.pi / 4) / Real.pi = 192
    field_simp
    ring
  have h2 : latlngToPixel vHit (gdLat (Real.pi / 4)) 45 = (320, 192) := by
    rw [latlngToPixel_vHit_gd]
    refine Prod.ext (by norm_num) ?_
    show 256 - 256 * (Real.pi / 4) / Real.pi = 192
    field_simp
    ring
  have h3 : latlngToPixel vHit (gdLat (-(Real.pi / 4))) 45 = (320, 320) := by
    rw [latlngToPixel_vHit_gd]
    refine Prod.ext (by norm_num) ?_
    show 256 - 256 * -(Real.pi / 4) / Real.pi = 320
    field_simp
    ring
  have h4 : latlngToPixel vHit (gdLat (-(Real.pi / 4))) (-45) = (192, 320) := by
    rw [latlngToPixel_vHit_gd]
    refine Prod.ext (by norm_num) ?_
    show 256 - 256 * -(Real.pi / 4) / Real.pi = 320
    field_simp
    ring
  simp only [List.map_cons, List.map_nil]
  rw [h1, h2, h3, h4]

lemma polyC7_hole_pix :
    ([(gdLat (Real.pi / 8), (-22.5 : ℝ)), (gdLat (Real.pi / 8), 22.5),
      (gdLat (-(Real.pi / 8)), 22.5), (gdLat (-(Real.pi / 8)), -22.5)]).map
        (fun c => latlngToPixel vHit c.1 c.2)
      = [((224 : ℝ), (224 : ℝ)), (288, 224), (288, 288), (224, 288)] := by
  have hpine : Real.pi ≠ 0 := Real.pi_ne_zero
  have h1 : latlngToPixel vHit (gdLat (Real.pi / 8)) (-22.5) = (224, 224) := by
    rw [latlngToPixel_vHit_gd]
    refine Prod.ext (by norm_num) ?_
    show 256 - 256 * (Real.pi / 8) / Real.pi = 224
    field_simp
    ring
  have h2 : latlngToPixel vHit (gdLat (Real.pi / 8)) 22.5 = (288, 224) := by
    rw [latlngToPixel_vHit_gd]
    refine Prod.ext (by norm_num) ?_
    show 256 - 256 * (Real.pi / 8) / Real.pi = 224
    field_simp
    ring
  have h3 : latlngToPixel vHit (gdLat (-(Real.pi / 8))) 22.5 = (288, 288) := by
    rw [latlngToPixel_vHit_gd]
    refine Prod.ext (by norm_num) ?_
    show 256 - 256 * -(Real.pi / 8) / Real.pi = 288
    field_simp
    ring
  have h4 : latlngToPixel vHit (gdLat (-(Real.pi / 8))) (-22.5) = (224, 288) := by
    rw [latlngToPixel_vHit_gd]
    refine Prod.ext (by norm_num) ?_
    show 256 - 256 * -(Real.pi / 8) / Real.pi = 288
    field_simp
    ring
  simp only [List.map_cons, List.map_nil]
  rw [h1, h2, h3, h4]

/-- Witness for C7: a square with a centered square hole; the query at the
common center is inside the outer ring and inside the (single) hole ring, and
the polygon reports no match. -/
theorem C7_polygon_parity_witness : isPointInPolygon vHit 256 256 polyC7 = false := by
  have houter : pointInRing 256 256
      (([(gdLat (Real.pi / 4), (-45 : ℝ)), (gdLat (Real.pi / 4), 45),
        (gdLat (-(Real.pi / 4)), 45), (gdLat (-(Real.pi / 4)), -45)]).map
          fun c => latlngToPixel vHit c.1 c.2) = true := by
    rw [polyC7_outer_pix]
    exact pointInRing_square64
  have hhole : pointInRing 256 256
      (([(gdLat (Real.pi / 8), (-22.5 : ℝ)), (gdLat (Real.pi / 8), 22.5),
        (gdLat (-(Real.pi / 8)), 22.5), (gdLat (-(Real.pi / 8)), -22.5)]).map
          fun c => latlngToPixel vHit c.1 c.2) = true := by
    rw [polyC7_hole_pix]
    exact pointInRing_square32
  exact (C7_polygon_parity vHit 256 256
    [(gdLat (Real.pi / 4), (-45 : ℝ)), (gdLat (Real.pi / 4), 45),
      (gdLat (-(Real.pi / 4)), 45), (gdLat (-(Real.pi / 4)), -45)]
    [[(gdLat (Real.pi / 8), (-22.5 : ℝ)), (gdLat (Real.pi / 8), 22.5),
      (gdLat (-(Real.pi / 8)), 22.5), (gdLat (-(Real.pi / 8)), -22.5)]]
    houter).1
    ⟨[(gdLat (Real.pi / 8), (-22.5 : ℝ)), (gdLat (Real.pi / 8), 22.5),
      (gdLat (-(Real.pi / 8)), 22.5), (gdLat (-(Real.pi / 8)), -22.5)],
     by simp, hhole⟩

/-! ## Ingestion-layer facts -/

lemma addPoints_char (input : List PointIn) : ∀ st : ExportState,
    (addPoints st input).points = st.points ++ input.filterMap PointIn.feature? ∧
    (addPoints st input).lines = st.lines ∧
    (addPoints st input).polygons = st.polygons ∧
    (addPoints st input).bounds
      = (input.filterMap PointIn.feature?).foldl
          (fun b f => updateBounds b f.lat f.lng) st.bounds := by
  induction input with
  | nil =>
    intro st
    exact ⟨by simp [addPoints], rfl, rfl, by simp [addPoints]⟩
  | cons p rest ih =>
    intro st
    have hfold : addPoints st (p :: rest) = addPoints (addPointsStep st p) rest := rfl
    rcases hla : p.resolvedLat with _ | la
    · have hstep : addPointsStep st p = st := by
        unfold addPointsStep
        rw [hla]
      have hf : p.feature? = none := by
        unfold PointIn.feature?
        rw [hla]
      rw [hfold, hstep, List.filterMap_cons_none hf]
      exact ih st
    · rcases hln : p.resolvedLng with _ | ln
      · have hstep : addPointsStep st p = st := by
          unfold addPointsStep
          rw [hla, hln]
        have hf : p.feature? = none := by
          unfold PointIn.feature?
          rw [hla, hln]
        rw [hfold, hstep, List.filterMap_cons_none hf]
        exact ih st
      · have hsp : (addPointsStep st p).points = st.points ++ [⟨la, ln⟩] := by
          unfold addPointsStep
          rw [hla, hln]
        have hsl : (addPointsStep st p).lines = st.lines := by
          unfold addPointsStep
          rw [hla, hln]
        have hsg : (addPointsStep st p).polygons = st.polygons := by
          unfold addPointsStep
          rw [hla, hln]
        have hsb : (addPointsStep st p).bounds = updateBounds st.bounds la ln := by
          unfold addPointsStep
          rw [hla, hln]
        have hf : p.feature? = some ⟨la, ln⟩ := by
          unfold PointIn.feature?
          rw [hla, hln]
        obtain ⟨h1, h2, h3, h4⟩ := ih (addPointsStep st p)
        rw [hfold] at *
        refine ⟨?_, ?_, ?_, ?_⟩
        · rw [h1, hsp, List.filterMap_cons_some hf]
          simp
        · rw [h2, hsl]
        · rw [h3, hsg]
        · rw [h4, hsb, List.filterMap_cons_some hf, List.foldl_cons]

lemma addLines_char (input : List LineIn) : ∀ st : ExportState,
    (addLines st input).lines = st.lines ++ input.filterMap LineIn.feature? ∧
    (addLines st input).points = st.points ∧
    (addLines st input).polygons = st.polygons ∧
    (addLines st input).bounds
      = (input.filterMap LineIn.feature?).foldl
          (fun b f => boundsOfCoords b f.coords) st.bounds := by
  induction input with
  | nil =>
    intro st
    exact ⟨by simp [addLines], rfl, rfl, by simp [addLines]⟩
  | cons l rest ih =>
    intro st
    have hfold : addLines st (l :: rest) = addLines (addLinesStep st l) rest := rfl
    rcases hc : l.resolvedCoords with _ | cs
    · have hstep : addLinesStep st l = st := by
        unfold addLinesStep
        rw [hc]
      have hf : l.feature? = none := by
        unfold LineIn.feature?
        rw [hc]
      rw [hfold, hstep, List.filterMap_cons_none hf]
      exact ih st
    · by_cases hlen : cs.length < 2
      · have hstep : addLinesStep st l = st := by
          unfold addLinesStep
          rw [hc]; simp [hlen]
        have hf : l.feature? = none := by
          unfold LineIn.feature?
          rw [hc]; simp [hlen]
        rw [hfold, hstep, List.filterMap_cons_none hf]
        exact ih st
      · have hsl : (addLinesStep st l).lines = st.lines ++ [⟨normalizeCoords cs⟩] := by
          unfold addLinesStep
          rw [hc]; simp [hlen]
        have hsp : (addLinesStep st l).points = st.points := by
          unfold addLinesStep
          rw [hc]; simp [hlen]
        have hsg : (addLinesStep st l).polygons = st.polygons := by
          unfold addLinesStep
          rw [hc]; simp [hlen]
        have hsb : (addLinesStep st l).bounds
            = boundsOfCoords st.bounds (normalizeCoords cs) := by
          unfold addLinesStep
          rw [hc]; simp [hlen]
        have hf : l.feature? = some ⟨normalizeCoords cs⟩ := by
          unfold LineIn.feature?
          rw [hc]; simp [hlen]
        obtain ⟨h1, h2, h3, h4⟩ := ih (addLinesStep st l)
        rw [hfold]
        refine ⟨?_, ?_, ?_, ?_⟩
        · rw [h1, hsl, List.filterMap_cons_some hf]
          simp
        · rw [h2, hsp]
        · rw [h3, hsg]
        · rw [h4, hsb, List.filterMap_cons_some hf, List.foldl_cons]

lemma addPolygons_char (input : List PolyIn) : ∀ st : ExportState,
    (addPolygons st input).polygons = st.polygons ++ input.filterMap PolyIn.feature? ∧
    (addPolygons st input).points = st.points ∧
    (addPolygons st input).lines = st.lines ∧
    (addPolygons st input).bounds
      = (input.filterMap PolyIn.feature?).foldl
          (fun b f => boundsOfRings b f.rings) st.bounds := by
  induction input with
  | nil =>
    intro st
    exact ⟨by simp [addPolygons], rfl, rfl, by simp [addPolygons]⟩
  | cons pg rest ih =>
    intro st
    have hfold : addPolygons st (pg :: rest) = addPolygons (addPolygonsStep st pg) rest :=
      rfl
    have hskip : addPolygonsStep st pg = st → pg.feature? = none →
        ((addPolygons st (pg :: rest)).polygons
            = st.polygons ++ (pg :: rest).filterMap PolyIn.feature? ∧
          (addPolygons st (pg :: rest)).points = st.points ∧
          (addPolygons st (pg :: rest)).lines = st.lines ∧
          (addPolygons st (pg :: rest)).bounds
            = ((pg :: rest).filterMap PolyIn.feature?).foldl
                (fun b f => boundsOfRings b f.rings) st.bounds) := by
      intro hstep hf
      rw [hfold, hstep, List.filterMap_cons_none hf]
      exact ih st
    have hadd : ∀ rs : List (List (ℝ × ℝ)),
        (addPolygonsStep st pg).polygons = st.polygons ++ [⟨rs⟩] →
        (addPolygonsStep st pg).points = st.points →
        (addPolygonsStep st pg).lines = st.lines →
        (addPolygonsStep st pg).bounds = boundsOfRings st.bounds rs →
        pg.feature? = some ⟨rs⟩ →
        ((addPolygons st (pg :: rest)).polygons
            = st.polygons ++ (pg :: rest).filterMap PolyIn.feature? ∧
          (addPolygons st (pg :: rest)).points = st.points ∧
          (addPolygons st (pg :: rest)).lines = st.lines ∧
          (addPolygons st (pg :: rest)).bounds
            = ((pg :: rest).filterMap PolyIn.feature?).foldl
                (fun b f => boundsOfRings b f.rings) st.bounds) := by
      intro rs hsg hsp hsl hsb hf
      obtain ⟨h1, h2, h3, h4⟩ := ih (addPolygonsStep st pg)
      rw [hfold]
      refine ⟨?_, ?_, ?_, ?_⟩
      · rw [h1, hsg, List.filterMap_cons_some hf]
        simp
      · rw [h2, hsp]
      · rw [h3, hsl]
      · rw [h4, hsb, List.filterMap_cons_some hf, List.foldl_cons]
    rcases hc : pg.resolvedCoords with _ | pc
    · refine hskip ?_ ?_
      · unfold addPolygonsStep
        rw [hc]
      · unfold PolyIn.feature?
        rw [hc]
    · by_cases he : pc.isEmptyP
      · refine hskip ?_ ?_
        · unfold addPolygonsStep
          rw [hc]; simp [he]
        · unfold PolyIn.feature?
          rw [hc]; simp [he]
      · rcases pc with cs | ringList
        · by_cases h3 : cs.length < 3
          · refine hskip ?_ ?_
            · unfold addPolygonsStep
              rw [hc]; simp [he, h3]
            · unfold PolyIn.feature?
              rw [hc]; simp [he, h3]
          · refine hadd [normalizeCoords cs] ?_ ?_ ?_ ?_ ?_
            · unfold addPolygonsStep
              rw [hc]; simp [he, h3]
            · unfold addPolygonsStep
              rw [hc]; simp [he, h3]
            · unfold addPolygonsStep
              rw [hc]; simp [he, h3]
            · unfold addPolygonsStep
              rw [hc]; simp [he, h3]
            · unfold PolyIn.feature?
              rw [hc]; simp [he, h3]
        · by_cases hvr : (ringList.filter (fun r => 3 ≤ r.length)).isEmpty
          · refine hskip ?_ ?_
            · unfold addPolygonsStep
              rw [hc]; simp [he, hvr]
            · unfold PolyIn.feature?
              rw [hc]; simp [he, hvr]
          · refine hadd ((ringList.filter (fun r => 3 ≤ r.length)).map normalizeCoords)
              ?_ ?_ ?_ ?_ ?_
            · unfold addPolygonsStep
              rw [hc]; simp [he, hvr]
            · unfold addPolygonsStep
              rw [hc]; simp [he, hvr]
            · unfold addPolygonsStep
              rw [hc]; simp [he, hvr]
            · unfold addPolygonsStep
              rw [hc]; simp [he, hvr]
            · unfold PolyIn.feature?
              rw [hc]; simp [he, hvr]

/-- Claim C8: for every input batch, a point with no resolvable lat/lng, a
line with fewer than two coordinates, and a polygon with no ring of at least
three points are each skipped (contributing `none` to `feature?`), adding no
feature and changing no stored state, while all remaining valid features of
the batch are appended in order and only their coordinates are folded into
the bounds.  (The printed diagnostics are outside the state model.) -/
theorem C8_ingestion_skip (st : ExportState) (ps : List PointIn) (ls : List LineIn)
    (pgs : List PolyIn) :
    ((addPoints st ps).points = st.points ++ ps.filterMap PointIn.feature? ∧
     (addPoints st ps).lines = st.lines ∧
     (addPoints st ps).polygons = st.polygons ∧
     (addPoints st ps).bounds = (ps.filterMap PointIn.feature?).foldl
       (fun b f => updateBounds b f.lat f.lng) st.bounds) ∧
    ((addLines st ls).lines = st.lines ++ ls.filterMap LineIn.feature? ∧
     (addLines st ls).points = st.points ∧
     (addLines st ls).polygons = st.polygons ∧
     (addLines st ls).bounds = (ls.filterMap LineIn.feature?).foldl
       (fun b f => boundsOfCoords b f.coords) st.bounds) ∧
    ((addPolygons st pgs).polygons = st.polygons ++ pgs.filterMap PolyIn.feature? ∧
     (addPolygons st pgs).points = st.points ∧
     (addPolygons st pgs).lines = st.lines ∧
     (addPolygons st pgs).bounds = (pgs.filterMap PolyIn.feature?).foldl
       (fun b f => boundsOfRings b f.rings) st.bounds) :=
  ⟨addPoints_char ps st, addLines_char ls st, addPolygons_char pgs st⟩

lemma boundsWidened_refl (b : Option Bounds) : boundsWidened b b := by
  intro bb hbb
  exact ⟨bb, hbb, le_refl _, le_refl _, le_refl _, le_refl _⟩

lemma boundsWidened_trans {a b c : Option Bounds}
    (h1 : boundsWidened a b) (h2 : boundsWidened b c) : boundsWidened a c := by
  intro bb hbb
  obtain ⟨b1, hb1, p1, p2, p3, p4⟩ := h1 bb hbb
  obtain ⟨b2, hb2, q1, q2, q3, q4⟩ := h2 b1 hb1
  exact ⟨b2, hb2, le_trans q1 p1, le_trans p2 q2, le_trans q3 p3, le_trans p4 q4⟩

lemma updateBounds_widens (b : Option Bounds) (lat lng : ℝ) :
    boundsWidened b (updateBounds b lat lng) := by
  intro bb hbb
  cases b with
  | none => simp at hbb
  | some c =>
    have hcb : c = bb := by
      injection hbb
    subst hcb
    exact ⟨_, rfl, min_le_left _ _, le_max_left _ _, min_le_left _ _, le_max_left _ _⟩

lemma boundsOfCoords_widens (cs : List (ℝ × ℝ)) : ∀ b : Option Bounds,
    boundsWidened b (boundsOfCoords b cs) := by
  induction cs with
  | nil => intro b; exact boundsWidened_refl b
  | cons c rest ih =>
    intro b
    exact boundsWidened_trans (updateBounds_widens b c.1 c.2) (ih _)

lemma boundsOfRings_widens (rings : List (List (ℝ × ℝ))) : ∀ b : Option Bounds,
    boundsWidened b (boundsOfRings b rings) := by
  induction rings with
  | nil => intro b; exact boundsWidened_refl b
  | cons r rest ih =>
    intro b
    exact boundsWidened_trans (boundsOfCoords_widens r b) (ih _)

lemma foldl_boundsWidened {α : Type} (f : Option Bounds → α → Option Bounds)
    (hf : ∀ b a, boundsWidened b (f b a)) (l : List α) : ∀ b : Option Bounds,
    boundsWidened b (l.foldl f b) := by
  induction l with
  | nil => intro b; exact boundsWidened_refl b
  | cons a rest ih =>
    intro b
    exact boundsWidened_trans (hf b a) (ih _)

/-- Claim C9 (amended): across every `add_points`, `add_lines` and
`add_polygons` call, the bounds only widen — `min_lat`/`min_lng` never
increase and `max_lat`/`max_lng` never decrease.  `clear()` however resets
the bounds to `None`, so the widening claim does not hold across every
operation (see the C9 counterexample). -/
theorem C9_bounds_widen_amended (st : ExportState) (ps : List PointIn)
    (ls : List LineIn) (pgs : List PolyIn) :
    boundsWidened st.bounds (addPoints st ps).bounds ∧
    boundsWidened st.bounds (addLines st ls).bounds ∧
    boundsWidened st.bounds (addPolygons st pgs).bounds := by
  refine ⟨?_, ?_, ?_⟩
  · rw [(addPoints_char ps st).2.2.2]
    exact foldl_boundsWidened _ (fun b (f : ExpPoint) => updateBounds_widens b f.lat f.lng) _ _
  · rw [(addLines_char ls st).2.2.2]
    exact foldl_boundsWidened _ (fun b (f : ExpLine) => boundsOfCoords_widens f.coords b) _ _
  · rw [(addPolygons_char pgs st).2.2.2]
    exact foldl_boundsWidened _ (fun b (f : ExpPoly) => boundsOfRings_widens f.rings b) _ _

/-- Witness for the amended C9: starting from bounds
(min_lat 1, max_lat 2, min_lng 3, max_lng 4), adding a point can only widen
them. -/
theorem C9_bounds_widen_amended_witness :
    ∃ bb', (addPoints stC9 [ptC9b]).bounds = some bb' ∧
      bb'.min_lat ≤ 1 ∧ (2 : ℝ) ≤ bb'.max_lat ∧ bb'.min_lng ≤ 3 ∧ (4 : ℝ) ≤ bb'.max_lng :=
  (C9_bounds_widen_amended stC9 [ptC9b] [] []).1 ⟨1, 2, 3, 4⟩ rfl

/-- Counterexample to claim C9: `clear()` is an operation on the instance and
resets the bounds; re-ingesting afterwards restarts them, so `min_lat`
increases from -10 to 5 across the operation sequence
add_points → clear → add_points. -/
theorem C9_counterexample :
    (addPoints ⟨[], [], [], none⟩ [ptC9a]).bounds = some ⟨-10, -10, 0, 0⟩ ∧
    (addPoints (clear (addPoints ⟨[], [], [], none⟩ [ptC9a])) [ptC9b]).bounds
      = some ⟨5, 5, 0, 0⟩ ∧
    ¬((5 : ℝ) ≤ -10) :=
  ⟨rfl, rfl, by norm_num⟩

/-- Counterexample to claim C10: a mapping coordinate that supplies latitude 0
under the key `y` and longitude 5 under the key `x` is preserved as
`[0.0, 5.0]`, not replaced by `[0.0, 0.0]`: the truth-value `or` chain returns
the final operand's value unchanged, so a falsy `0` in the last alias key
(`y`/`x`) passes the `is not None` test. -/
theorem C10_counterexample :
    normalizeCoords [Coord.dict ⟨none, none, some 0, none, none, some 5⟩]
      = [((0 : ℝ), 5)] ∧
    ((0 : ℝ), (5 : ℝ)) ≠ ((0 : ℝ), (0 : ℝ)) := by
  refine ⟨rfl, ?_⟩
  intro h
  rw [Prod.mk.injEq] at h
  exact absurd h.2 (by norm_num)

/-- Claim C10 (amended): in `_normalize_coords`, a dict-form coordinate whose
latitude (resp. longitude) value is 0 is treated as missing when the 0 is
supplied under a non-final alias key (`lat`/`latitude`, resp.
`lng`/`longitude`) and the final key (`y`, resp. `x`) is absent — the whole
pair then becomes [0.0, 0.0] regardless of the other coordinate's value.  A 0
supplied under the final alias key `y`/`x` is preserved exactly, as is any
list/tuple-form coordinate with 0 entries. -/
theorem C10_zero_coordinate_amended (a b : ℝ) :
    normalizeCoords [Coord.dict ⟨some 0, none, none, some b, none, none⟩]
      = [((0 : ℝ), 0)] ∧
    normalizeCoords [Coord.dict ⟨none, none, some a, none, none, some b⟩] = [(a, b)] ∧
    normalizeCoords [Coord.arr a b] = [(a, b)] := by
  refine ⟨?_, rfl, rfl⟩
  have hinner : pyOr (some (0 : ℝ)) none = none := by
    show (if (0 : ℝ) ≠ 0 then some (0 : ℝ) else none) = none
    rw [if_neg]
    norm_num
  have hlat : pyOr (pyOr (some (0 : ℝ)) none) none = none := by
    rw [hinner]
    rfl
  show [(match pyOr (pyOr (some (0 : ℝ)) none) none,
      pyOr (pyOr (some b) none) none with
    | some la, some ln => ((la, ln) : ℝ × ℝ)
    | _, _ => (0, 0))] = [((0 : ℝ), 0)]
  rw [hlat]

end Osman
